import Mathlib

/-!
Verification development for the stanza-linguistic-suite core:
a shallow embedding of the Document serializers (`doc_to_tsv`,
`doc_to_conllu` in `modules/stanza_demo.py`), the tabular loader and
statistics engine (`modules/stats.py`), and the processor-string
validator (`modules/utils.py`), together with theorems settling the
specification's claims about them.

Modelling conventions:
* Python strings are Lean `String`s; Python `None` for an optional field
  is `Option.none`.  Python's truthiness test `x if x else "_"` treats
  both `None` and `""` as falsy, which `orBlank` reproduces; `str(None)`
  is the literal `"None"`, which `pyStr` reproduces.
* Machine text is handled at the `List Char` level with hand-rolled
  `splitChar` / `joinStr`, matching Python's `str.split` / `str.join`.
* Decimal rendering of integers (`str(n)`) is `natStr`; parsing mirrors
  `pandas.to_numeric` restricted to the decimal naturals that the
  serializer emits (signs and floats are never exercised by the claims).
* `pandas.read_csv` turns the cells listed in `NA_VALUES` (its
  documented default NA sentinels) into NaN; `load_tsv`'s
  `fillna`-normalisation is modelled cell-by-cell on top of that.
  Whole-column numeric dtype inference — a string column every one of
  whose non-NA cells is numeric-looking (`numericLike`) gets a numeric
  dtype and its values are re-rendered through int/float formatting
  (`"007"` loads as `"7"`, `"1.50"` as `"1.5"`) — is detected by
  `columnNumeric`; because binary floating-point re-rendering is outside
  the model, `load_tsv` refuses such tables (`.error`) instead of
  mis-loading them verbatim, and the round-trip theorem's hypotheses
  exclude them.
* Percentages rounded to two decimals are modelled exactly as integer
  hundredths of a percent (`round2c`, round-half-up; numpy's
  half-to-even differs only on exact ties, and every theorem below is
  robust to the choice of tie-breaking).
* Python's stable `sorted` is `List.insertionSort`; `dict` accumulation
  in insertion order is the association-list `bump`.
-/

deriving instance DecidableEq for Except

namespace StanzaSuite

/-! ### Generic text helpers -/

/-- Python `s.split(sep)` for a one-character separator, on char lists:
`splitChar ',' "" = [""]`, `splitChar ',' "a,,b" = ["a","","b"]`. -/
def splitChar (sep : Char) : List Char → List (List Char)
  | [] => [[]]
  | c :: cs =>
    if c = sep then [] :: splitChar sep cs
    else
      match splitChar sep cs with
      | [] => [[c]]
      | t :: ts => (c :: t) :: ts

/-- Python `sep.join(parts)`. -/
def joinStr (sep : String) : List String → String
  | [] => ""
  | [x] => x
  | x :: y :: ys => x ++ sep ++ joinStr sep (y :: ys)

/-- `joinStr` at the char-list level, for a one-character separator. -/
def joinCh (sep : Char) : List (List Char) → List Char
  | [] => []
  | [x] => x
  | x :: y :: ys => x ++ sep :: joinCh sep (y :: ys)

/-- Whitespace class stripped by Python's `str.strip` (ASCII part). -/
def isSpc (c : Char) : Bool := c = ' ' || c = '\t' || c = '\n' || c = '\r' || c = '\x0b' || c = '\x0c'

/-- Python `s.strip()` on char lists. -/
def stripData (l : List Char) : List Char :=
  ((l.dropWhile isSpc).reverse.dropWhile isSpc).reverse

/-- Python `s.strip()`. -/
def pyStrip (s : String) : String := String.mk (stripData s.data)

/-- Python `s.rstrip()` on char lists. -/
def rstripData (l : List Char) : List Char := (l.reverse.dropWhile isSpc).reverse

/-- ASCII lower-casing of one character (the fragment of Python
`str.lower` the pipeline exercises). -/
def lowerChar : Char → Char
  | 'A' => 'a' | 'B' => 'b' | 'C' => 'c' | 'D' => 'd' | 'E' => 'e' | 'F' => 'f'
  | 'G' => 'g' | 'H' => 'h' | 'I' => 'i' | 'J' => 'j' | 'K' => 'k' | 'L' => 'l'
  | 'M' => 'm' | 'N' => 'n' | 'O' => 'o' | 'P' => 'p' | 'Q' => 'q' | 'R' => 'r'
  | 'S' => 's' | 'T' => 't' | 'U' => 'u' | 'V' => 'v' | 'W' => 'w' | 'X' => 'x'
  | 'Y' => 'y' | 'Z' => 'z' | c => c

/-- Python `s.lower()` (ASCII fragment). -/
def pyLower (s : String) : String := String.mk (s.data.map lowerChar)

/-- Strict lexicographic comparison of char lists by code point, as
Python compares strings. -/
def strLtB : List Char → List Char → Bool
  | [], [] => false
  | [], _ :: _ => true
  | _ :: _, [] => false
  | x :: xs, y :: ys =>
    if x.toNat < y.toNat then true
    else if y.toNat < x.toNat then false
    else strLtB xs ys

/-- Python `a < b` on strings. -/
def pyStrLt (a b : String) : Bool := strLtB a.data b.data

/-- Python string `≤`, as the order used by `sorted`. -/
def strLe (a b : String) : Prop := strLtB b.data a.data = false

instance : DecidableRel strLe := fun _ _ => instDecidableEqBool _ _

/-- First-seen-order deduplication, as the `seen`-set loop of
`validate_processors` and as Python dict key order. -/
def dedupFirstAux {α : Type} [DecidableEq α] : List α → List α → List α
  | _, [] => []
  | seen, p :: rest =>
    if p ∈ seen then dedupFirstAux seen rest
    else p :: dedupFirstAux (p :: seen) rest

/-- Deduplicate keeping the first occurrence of each element. -/
def dedupFirst {α : Type} [DecidableEq α] (l : List α) : List α := dedupFirstAux [] l

/-! ### Decimal numerals: `str(n)` and the fragment of
`pandas.to_numeric` the serialized tables exercise -/

/-- The decimal digit characters. -/
def digitChar : Nat → Char
  | 0 => '0' | 1 => '1' | 2 => '2' | 3 => '3' | 4 => '4'
  | 5 => '5' | 6 => '6' | 7 => '7' | 8 => '8' | _ => '9'

/-- Value of a decimal digit character (code points 48–57). -/
def digitVal? (c : Char) : Option Nat :=
  if 48 ≤ c.toNat ∧ c.toNat ≤ 57 then some (c.toNat - 48) else none

/-- Digits of `n`, most significant first; `fuel`-structured so the
kernel can evaluate it (`fuel > n` always suffices). -/
def natStrAux : Nat → Nat → List Char
  | 0, _ => []
  | fuel + 1, n =>
    if n < 10 then [digitChar n]
    else natStrAux fuel (n / 10) ++ [digitChar (n % 10)]

/-- Python `str(n)` for a natural number. -/
def natStr (n : Nat) : String := String.mk (natStrAux (n + 1) n)

/-- Left-to-right accumulator parse of a digit string. -/
def parseDigits : List Char → Nat → Option Nat
  | [], acc => some acc
  | c :: cs, acc =>
    match digitVal? c with
    | some d => parseDigits cs (acc * 10 + d)
    | none => none

/-- Parse a non-empty all-digit string as a natural number; `none`
otherwise.  This is the fragment of `pandas.to_numeric(errors="coerce")`
exercised by the serialized tables (which only ever hold unsigned
decimal integers in their numeric columns). -/
def parseNat10 (s : String) : Option Nat :=
  match s.data with
  | [] => none
  | l => parseDigits l 0

/-! ### The document model (stanza's `Document`)

A `Token` owns one or more `Word`s (spec §3), so its first word — the
`tok.words[0]` that `doc_to_tsv` reads — is a structure field.  An
`Entity` references the tokens it covers by their 0-based position in
the sentence's token sequence (the arena-index representation the
spec's design notes prescribe for the identity-keyed
`token_positions` map of the source). -/

structure Word where
  id : Nat
  text : String
  lemma' : Option String
  upos : Option String
  xpos : Option String
  feats : Option String
  head : Option Nat
  deprel : Option String
deriving DecidableEq

structure Token where
  text : String
  word0 : Word
  wordsRest : List Word
deriving DecidableEq

/-- All words of a token, `word0` first. -/
def Token.words (t : Token) : List Word := t.word0 :: t.wordsRest

structure Entity where
  type : String
  tokenIdxs : List Nat
deriving DecidableEq

structure Sentence where
  text : String
  tokens : List Token
  ents : List Entity
deriving DecidableEq

/-- `sent.words`: the words of all tokens in order. -/
def Sentence.words (s : Sentence) : List Word := s.tokens.flatMap Token.words

structure Document where
  sentences : List Sentence
deriving DecidableEq

/-! ### Placeholder substitution -/

/-- Python `x or "_"` / `x if x else "_"`: `None` and `""` are falsy. -/
def orBlank : Option String → String
  | none => "_"
  | some s => if s = "" then "_" else s

/-- Python `str(x)` on an optional string: `str(None) = "None"`. -/
def pyStr : Option String → String
  | none => "None"
  | some s => s

/-- `str(w.head if w.head is not None else 0)`. -/
def headCell : Option Nat → String
  | none => "0"
  | some h => natStr h

/-! ### BIO aligner (the entity-labelling block of `doc_to_tsv`) -/

/-- Label one entity's positions onto the running tag array: positions
inside the sentence are kept, sorted ascending, the first labelled
`B-<type>` and the rest `I-<type>`; an entity with no valid position
changes nothing. -/
def applyEnt (n : Nat) (tags : List String) (ent : Entity) : List String :=
  match List.insertionSort (fun a b => a ≤ b) (ent.tokenIdxs.filter (fun i => i < n)) with
  | [] => tags
  | i :: rest => rest.foldl (fun t j => t.set j ("I-" ++ ent.type)) (tags.set i ("B-" ++ ent.type))

/-- The per-token BIO labels of a sentence: start from all-`"O"`, then
process the sentence's entities in order. -/
def bio_tags (sent : Sentence) : List String :=
  sent.ents.foldl (applyEnt sent.tokens.length) (List.replicate sent.tokens.length "O")

/-! ### Tabular serializer (`doc_to_tsv`) -/

/-- The fixed column names of the tabular format. -/
def TSV_HEADER : List String :=
  ["sent_ix", "tok_ix", "FORM", "LEMMA", "UPOS", "XPOS", "HEAD", "DEPREL", "NER"]

/-- The nine cells of one token's data row. -/
def tokRowCells (s_ix t_ix : Nat) (tok : Token) (bio : String) : List String :=
  [natStr s_ix, natStr t_ix, tok.text, orBlank tok.word0.lemma', orBlank tok.word0.upos,
   orBlank tok.word0.xpos, headCell tok.word0.head, orBlank tok.word0.deprel, bio]

/-- Rows of one sentence's tokens paired with their BIO tags,
`tok_ix` counting from `t_ix`. -/
def tokRows (s_ix : Nat) : Nat → List (Token × String) → List (List String)
  | _, [] => []
  | t_ix, (tok, bio) :: rest => tokRowCells s_ix t_ix tok bio :: tokRows s_ix (t_ix + 1) rest

/-- Rows of a list of sentences, `sent_ix` counting from `s_ix`. -/
def sentRowsList : Nat → List Sentence → List (List String)
  | _, [] => []
  | s_ix, s :: ss => tokRows s_ix 1 (s.tokens.zip (bio_tags s)) ++ sentRowsList (s_ix + 1) ss

/-- All data rows of the tabular rendering, as cell lists. -/
def doc_to_tsv_rows (d : Document) : List (List String) := sentRowsList 1 d.sentences

/-- The `sent_ix` cell of a rendered data row. -/
def rowSent (r : List String) : String := r.headD ""

/-- The `tok_ix` cell of a rendered data row. -/
def rowTok (r : List String) : String := r.getD 1 ""

/-- `doc_to_tsv`: header row, one tab-joined row per token, rows joined
by newlines, one trailing newline. -/
def doc_to_tsv (d : Document) : String :=
  joinStr "\n" (joinStr "\t" TSV_HEADER :: (doc_to_tsv_rows d).map (joinStr "\t")) ++ "\n"

/-! ### CoNLL-U serializer (`doc_to_conllu`) -/

/-- The ten fields of one word's CoNLL-U line:
`ID FORM LEMMA UPOS XPOS FEATS HEAD DEPREL DEPS MISC`.  Note that the
source passes `w.lemma`, `w.upos` and `w.deprel` through `str(...)`
with no placeholder fallback, while `xpos` and `feats` get the
`x if x else "_"` treatment. -/
def conlluWordLine (w : Word) : List String :=
  [natStr w.id, w.text, pyStr w.lemma', pyStr w.upos, orBlank w.xpos, orBlank w.feats,
   headCell w.head, pyStr w.deprel, "_", "_"]

/-- One sentence's CoNLL-U block: two comment lines, one line per word,
one terminating blank line. -/
def sentConllu (sent_id : Nat) (sent : Sentence) : List String :=
  ("# sent_id = " ++ natStr sent_id) :: ("# text = " ++ sent.text) ::
    (sent.words.map (fun w => joinStr "\t" (conlluWordLine w)) ++ [""])

/-- CoNLL-U blocks of a sentence list, the 1-based counter starting
after `sid`. -/
def conlluLines : Nat → List Sentence → List String
  | _, [] => []
  | sid, s :: ss => sentConllu (sid + 1) s ++ conlluLines (sid + 1) ss

/-- `doc_to_conllu`: newline-joined lines, right-stripped, one trailing
newline. -/
def doc_to_conllu (d : Document) : String :=
  String.mk (rstripData (joinStr "\n" (conlluLines 0 d.sentences)).data) ++ "\n"

/-! ### Tabular loader (`load_tsv`) -/

/-- `pandas.read_csv`'s default NA sentinel strings: a cell equal to one
of these is read as NaN. -/
def NA_VALUES : List String :=
  ["", "#N/A", "#N/A N/A", "#NA", "-1.#IND", "-1.#INF", "-1.#QNAN", "-NaN", "-nan",
   "1.#IND", "1.#INF", "1.#QNAN", "<NA>", "N/A", "NA", "NULL", "NaN", "None",
   "n/a", "nan", "null"]

/-- A cell as `read_csv` sees it: `none` when the text is an NA
sentinel. -/
def readCell (c : String) : Option String := if c ∈ NA_VALUES then none else some c

/-- Decimal digit test. -/
def isDigit10 (c : Char) : Bool := (digitVal? c).isSome

/-- One or more decimal digits. -/
def digits1 (l : List Char) : Bool := !l.isEmpty && l.all isDigit10

/-- Exponent tail after the `e`: optional sign, then one or more
digits. -/
def expTail (l : List Char) : Bool :=
  match l with
  | [] => false
  | c :: rest => if c = '+' || c = '-' then digits1 rest else digits1 l

/-- Mantissa shapes `read_csv`'s number parser accepts: `digits`,
`digits.`, `digits.digits`, `.digits`. -/
def mantissaOk (l : List Char) : Bool :=
  let ip := l.takeWhile isDigit10
  match l.dropWhile isDigit10 with
  | [] => !ip.isEmpty
  | c :: frac => c = '.' && frac.all isDigit10 && (!ip.isEmpty || !frac.isEmpty)

/-- The cell texts `read_csv`'s parser reads as numbers (integers,
decimal floats, scientific notation, infinities), after an optional
leading sign and case-folding: when every non-NA cell of a column is of
this shape, pandas gives the column a numeric dtype and its values are
re-rendered through int/float formatting rather than kept verbatim. -/
def numericLike (s : String) : Bool :=
  let l := s.data.map lowerChar
  let body := match l with
    | c :: rest => if c = '+' || c = '-' then rest else l
    | [] => []
  body = ['i', 'n', 'f'] || body = ['i', 'n', 'f', 'i', 'n', 'i', 't', 'y'] ||
  (match splitChar 'e' body with
   | [m] => mantissaOk m
   | [m, ex] => mantissaOk m && expTail ex
   | _ => false)

/-- Whether `read_csv` would infer a numeric dtype for a column holding
these cells: at least one non-NA cell, and every non-NA cell
numeric-looking.  (A column of NA cells only becomes an all-NaN float
column, which the string columns' `fillna` then maps to all-placeholder
strings — exactly what the cell-by-cell model produces, so that case
needs no special treatment.) -/
def columnNumeric (cells : List String) : Bool :=
  !(cells.filter (fun c => c ∉ NA_VALUES)).isEmpty &&
    (cells.filter (fun c => c ∉ NA_VALUES)).all numericLike

/-- One loaded, normalised row of the 9-column table: string columns
`fillna`-defaulted (`"_"`, NER `"O"`); `XPOS` has no `fillna` in
`load_tsv`, so an NA cell stays `none`; `sent_ix`/`tok_ix` are nullable
integers; `HEAD` is coerced with `fillna(0)`. -/
structure LoadedRow where
  sent_ix : Option Nat
  tok_ix : Option Nat
  form : String
  lemma' : String
  upos : String
  xpos : Option String
  head : Nat
  deprel : String
  ner : String
deriving DecidableEq

/-- Normalise the nine cells of one data row. -/
def loadRow : List String → Except String LoadedRow
  | [s, t, f, l, u, x, h, dp, nr] =>
    .ok { sent_ix := parseNat10 s
          tok_ix := parseNat10 t
          form := (readCell f).getD "_"
          lemma' := (readCell l).getD "_"
          upos := (readCell u).getD "_"
          xpos := readCell x
          head := (parseNat10 h).getD 0
          deprel := (readCell dp).getD "_"
          ner := (readCell nr).getD "O" }
  | _ => .error ("malformed row")

/-- Load every data line, first failure first. -/
def loadRows : List (List Char) → Except String (List LoadedRow)
  | [] => .ok []
  | line :: rest =>
    match loadRow ((splitChar '\t' line).map String.mk), loadRows rest with
    | .ok r, .ok rs => .ok (r :: rs)
    | .error e, _ => .error e
    | .ok _, .error e => .error e

/-- `load_tsv` on the canonical 9-column tabular text: split into lines,
skip blank lines, check the header, refuse tables on which `read_csv`'s
whole-column numeric dtype inference would fire for one of the six
string columns (FORM, LEMMA, UPOS, XPOS, DEPREL, NER — positions 2, 3,
4, 5, 7, 8), then normalise each data row.  On a refused table pandas
silently re-renders the inferred column through int/float formatting
(`"007"` → `"7"`, `"1.50"` → `"1.5"`); that re-rendering is outside the
model, which reports such tables as unsupported rather than mis-loading
them verbatim.  The numeral columns `sent_ix`/`tok_ix`/`HEAD` need no
guard: `load_tsv` forces them through `to_numeric`, and the cell-level
`parseNat10` agrees with the inferred integer value.  (The missing-file
branch of the source needs a filesystem and is out of scope; headers
other than the canonical one are never produced by the serializer and
are refused by the model.) -/
def load_tsv (text : String) : Except String (List LoadedRow) :=
  match (splitChar '\n' text.data).filter (fun l => !l.isEmpty) with
  | [] => .error ("empty file")
  | header :: dataLines =>
    if (splitChar '\t' header).map String.mk = TSV_HEADER then
      if [2, 3, 4, 5, 7, 8].any (fun i =>
          columnNumeric (dataLines.map (fun line =>
            ((splitChar '\t' line).map String.mk).getD i ""))) then
        .error ("unsupported: numeric dtype inference")
      else loadRows dataLines
    else .error ("unsupported header")

/-- The loaded row the serializer's inputs should round-trip to:
the same FORM/LEMMA/UPOS/XPOS/HEAD/DEPREL/NER values that were used to
render the token's row. -/
def expectedRow (s_ix t_ix : Nat) (tok : Token) (bio : String) : LoadedRow :=
  { sent_ix := some s_ix
    tok_ix := some t_ix
    form := tok.text
    lemma' := orBlank tok.word0.lemma'
    upos := orBlank tok.word0.upos
    xpos := some (orBlank tok.word0.xpos)
    head := (tok.word0.head).getD 0
    deprel := orBlank tok.word0.deprel
    ner := bio }

/-- Expected loaded rows of one sentence. -/
def expectedTokRows (s_ix : Nat) : Nat → List (Token × String) → List LoadedRow
  | _, [] => []
  | t_ix, (tok, bio) :: rest => expectedRow s_ix t_ix tok bio :: expectedTokRows s_ix (t_ix + 1) rest

/-- Expected loaded rows of a sentence list. -/
def expectedSentRows : Nat → List Sentence → List LoadedRow
  | _, [] => []
  | s_ix, s :: ss =>
    expectedTokRows s_ix 1 (s.tokens.zip (bio_tags s)) ++ expectedSentRows (s_ix + 1) ss

/-- The full expected load of a document's tabular rendering. -/
def expectedLoad (d : Document) : List LoadedRow := expectedSentRows 1 d.sentences

/-! ### The loaded table, as the stats engine consumes it

A `Table` is a header plus rows of cells.  Cells are kept as strings;
the numeric columns (`sent_ix`, `tok_ix`, `HEAD`), which `load_tsv`
converts to integers, are interpreted through `parseNat10` at their use
sites, with an unparseable cell playing NaN's role (dropped by
`groupby(dropna=True)`). -/

structure Table where
  columns : List String
  rows : List (List String)
deriving DecidableEq

/-- The cell of `row` under column `c` (rows are aligned with the
header; used only after the column's presence is established). -/
def getCell (cols : List String) (row : List String) (c : String) : String :=
  match List.findIdx? (fun x => x == c) cols with
  | some i => row.getD i ""
  | none => ""

/-- Column access as pandas performs it on `df[...]` / groupby
selection: a missing label raises a `KeyError` naming it. -/
def requireCol (t : Table) (c : String) : Except String (List String) :=
  if c ∈ t.columns then .ok (t.rows.map (fun r => getCell t.columns r c))
  else .error ("KeyError: '" ++ c ++ "'")

/-! ### Stats engine (`modules/stats.py`) -/

/-- `Series.value_counts()`: distinct values with their counts, sorted
by count descending (`insertionSort` is stable; pandas leaves the tie
order unspecified). -/
def value_counts (l : List String) : List (String × Nat) :=
  List.insertionSort (fun e1 e2 => e2.2 ≤ e1.2) ((dedupFirst l).map (fun v => (v, l.count v)))

/-- `(num / den * 100).round(2)` as an exact count of hundredths of a
percent, round-half-up (`den = 0` never arises on observed rows). -/
def round2c (num den : Nat) : Nat := (20000 * num + den) / (2 * den)

/-- `pos_counts`: UPOS value, count, and percentage (in hundredths) of
the total. -/
def pos_counts (t : Table) : Except String (List (String × Nat × Nat)) :=
  if "UPOS" ∉ t.columns then .error ("Falta columna 'UPOS'.")
  else
    let vc := value_counts (t.rows.map (fun r => getCell t.columns r "UPOS"))
    let total := (vc.map Prod.snd).sum
    .ok (vc.map (fun e => (e.1, e.2, round2c e.2 total)))

/-- `lemma_freqs`: the `top` most frequent lemmas with counts. -/
def lemma_freqs (t : Table) (top : Nat) : Except String (List (String × Nat)) :=
  if "LEMMA" ∉ t.columns then .error ("Falta columna 'LEMMA'.")
  else .ok ((value_counts (t.rows.map (fun r => getCell t.columns r "LEMMA"))).take top)

/-- `ner_counts`: NER tag frequencies, the `"O"` label dropped first
when `drop_o`. -/
def ner_counts (t : Table) (drop_o : Bool) : Except String (List (String × Nat)) :=
  if "NER" ∉ t.columns then .error ("Falta columna 'NER'.")
  else
    let col := t.rows.map (fun r => getCell t.columns r "NER")
    .ok (value_counts (if drop_o then col.filter (fun v => v != "O") else col))

/-- `deprel_counts`: DEPREL frequencies. -/
def deprel_counts (t : Table) : Except String (List (String × Nat)) :=
  if "DEPREL" ∉ t.columns then .error ("Falta columna 'DEPREL'.")
  else .ok (value_counts (t.rows.map (fun r => getCell t.columns r "DEPREL")))

/-- `top_lemmas_by_upos`: lemma frequencies restricted to one UPOS. -/
def top_lemmas_by_upos (t : Table) (upos : String) (top : Nat) :
    Except String (List (String × Nat)) :=
  if "UPOS" ∉ t.columns then .error ("Falta columna 'UPOS'.")
  else if "LEMMA" ∉ t.columns then .error ("Falta columna 'LEMMA'.")
  else
    let sub := t.rows.filter (fun r => getCell t.columns r "UPOS" == upos)
    .ok ((value_counts (sub.map (fun r => getCell t.columns r "LEMMA"))).take top)

/-- `sentence_lengths`: token count per `sent_ix`
(`groupby("sent_ix")["FORM"].count()`: keys sorted ascending, NaN keys
dropped, FORM column required by the selection). -/
def sentence_lengths (t : Table) : Except String (List (Nat × Nat)) :=
  if "sent_ix" ∉ t.columns then .error ("Falta columna 'sent_ix'.")
  else
    match requireCol t "FORM" with
    | .error e => .error e
    | .ok _ =>
      let key := fun r => parseNat10 (getCell t.columns r "sent_ix")
      let ks := List.insertionSort (fun a b => a ≤ b) (dedupFirst (t.rows.filterMap key))
      .ok (ks.map (fun k => (k, (t.rows.filter (fun r => key r == some k)).length)))

/-- `sorted((a, b))` on two Python strings. -/
def pairKey (a b : String) : String × String := if pyStrLt b a then (b, a) else (a, b)

/-- `pairs[k] = pairs.get(k, 0) + 1` on an insertion-ordered
association list, as a Python dict. -/
def bump (m : List ((String × String) × Nat)) (k : String × String) :
    List ((String × String) × Nat) :=
  if m.any (fun e => e.1 == k) then m.map (fun e => if e.1 == k then (e.1, e.2 + 1) else e)
  else m ++ [(k, 1)]

/-- Python `range(lo, hi)`. -/
def pyRange (lo hi : Nat) : List Nat := List.range' lo (hi - lo)

/-- The double loop of `cooccurrences_within_window` over one
sentence's token list: every position `i`, every `j` in
`range(max(0, i-window), min(n, i+window+1))` with `j ≠ i`,
accumulating the sorted pair. -/
def coocSentPairs (window : Nat) (tokens : List String)
    (m0 : List ((String × String) × Nat)) : List ((String × String) × Nat) :=
  (List.range tokens.length).foldl (fun m i =>
    (pyRange (i - window) (min tokens.length (i + window + 1))).foldl (fun m' j =>
      if j = i then m' else bump m' (pairKey (tokens.getD i "") (tokens.getD j ""))) m) m0

/-- The `(sent_ix, tok_ix, token)` projection `df[["sent_ix", "tok_ix",
token_col]]`. -/
def coocSelect (t : Table) (token_col : String) : List (String × String × String) :=
  t.rows.map (fun r =>
    (getCell t.columns r "sent_ix", getCell t.columns r "tok_ix", getCell t.columns r token_col))

/-- Optional lower-casing of the token column. -/
def coocLower (lowercase : Bool) (x : List (String × String × String)) :
    List (String × String × String) :=
  if lowercase then x.map (fun e => (e.1, e.2.1, pyLower e.2.2)) else x

/-- Optional exclusion of stop tokens (Python `if exclude:` — an empty
iterable skips the filter). -/
def coocExclude (lowercase : Bool) (exclude : List String)
    (x : List (String × String × String)) : List (String × String × String) :=
  match exclude with
  | [] => x
  | _ :: _ =>
    let excl := if lowercase then exclude.map pyLower else exclude
    x.filter (fun e => e.2.2 ∉ excl)

/-- Grouping: by `sent_ix` (keys parsed, NaN dropped, iterated in
ascending key order, intra-group order kept) or the whole table as one
group sorted by `(sent_ix, tok_ix)`. -/
def coocGroups (by_sent : Bool) (x : List (String × String × String)) :
    List (List (String × String × String)) :=
  if by_sent then
    (List.insertionSort (fun a b => a ≤ b) (dedupFirst (x.filterMap (fun e => parseNat10 e.1)))).map
      (fun k => x.filter (fun e => parseNat10 e.1 == some k))
  else
    [List.insertionSort (fun e1 e2 =>
      (parseNat10 e1.1).getD 0 < (parseNat10 e2.1).getD 0 ∨
        ((parseNat10 e1.1).getD 0 = (parseNat10 e2.1).getD 0 ∧
          (parseNat10 e1.2.1).getD 0 ≤ (parseNat10 e2.2.1).getD 0)) x]

/-- Accumulate pair counts over every group, each group sorted by
`tok_ix` first. -/
def coocPairs (window : Nat) (groups : List (List (String × String × String))) :
    List ((String × String) × Nat) :=
  groups.foldl (fun m g =>
    coocSentPairs window
      ((List.insertionSort
          (fun e1 e2 => (parseNat10 e1.2.1).getD 0 ≤ (parseNat10 e2.2.1).getD 0) g).map
        (fun e => e.2.2)) m) []

/-- Sort the counted pairs by count descending. -/
def coocSort (pairs : List ((String × String) × Nat)) : List ((String × String) × Nat) :=
  List.insertionSort (fun e1 e2 => e2.2 ≤ e1.2) pairs

/-- Truncate to `top` when given and nonzero (Python `if top:`). -/
def coocTop (top : Option Nat) (rows : List ((String × String) × Nat)) :
    List ((String × String) × Nat) :=
  match top with
  | none => rows
  | some k => if k = 0 then rows else rows.take k

/-- Final packaging of the counted pairs.  When no pair was counted,
the source builds `pd.DataFrame([])` — an empty frame with *no
columns* — and `.sort_values("count", ascending=False)` on it raises
`KeyError: 'count'`; with at least one pair the frame has the
`left`/`right`/`count` columns and the sort and truncation succeed. -/
def coocFinish (top : Option Nat) (pairs : List ((String × String) × Nat)) :
    Except String (List ((String × String) × Nat)) :=
  match pairs with
  | [] => .error ("KeyError: 'count'")
  | _ :: _ => .ok (coocTop top (coocSort pairs))

/-- `cooccurrences_within_window`: symmetric windowed pair counting.
Output rows `((left, right), count)` with `left ≤ right`, sorted by
count descending, truncated to `top` when `top` is given and nonzero;
a table yielding no pair at all ends in the `KeyError: 'count'` of the
empty-frame sort (see `coocFinish`). -/
def cooccurrences_within_window (t : Table) (window : Nat) (by_sent lowercase : Bool)
    (exclude : List String) (use_lemma : Bool) (top : Option Nat) :
    Except String (List ((String × String) × Nat)) :=
  if ¬ ("FORM" ∈ t.columns ∧ "LEMMA" ∈ t.columns) then .error ("Faltan columnas 'FORM' / 'LEMMA'.")
  else
    match requireCol t "sent_ix", requireCol t "tok_ix" with
    | .error e, _ => .error e
    | .ok _, .error e => .error e
    | .ok _, .ok _ =>
      coocFinish top (coocPairs window (coocGroups by_sent
        (coocExclude lowercase exclude (coocLower lowercase
          (coocSelect t (if use_lemma then "LEMMA" else "FORM"))))))

/-- The DEPREL/UPOS pair of every row. -/
def depPairs (t : Table) : List (String × String) :=
  t.rows.map (fun r => (getCell t.columns r "DEPREL", getCell t.columns r "UPOS"))

/-- Total count of one DEPREL row of the cross-tab. -/
def depRowTotal (t : Table) (d : String) : Nat :=
  ((depPairs t).filter (fun p => p.1 == d)).length

/-- Count of one (DEPREL, UPOS) cell of the cross-tab. -/
def depCellCount (t : Table) (d u : String) : Nat :=
  ((depPairs t).filter (fun p => p.1 == d && p.2 == u)).length

/-- The DEPREL×UPOS percentage matrix: row and column labels are the
observed values sorted ascending, cells in hundredths of a percent. -/
structure DepMatrix where
  upos_vals : List String
  rows : List (String × List Nat)
deriving DecidableEq

/-- `dependency_role_matrix`: cross-tab of DEPREL by UPOS, each row
normalised to percentages of its total. -/
def dependency_role_matrix (t : Table) : Except String DepMatrix :=
  if "DEPREL" ∉ t.columns then .error ("Falta columna 'DEPREL'.")
  else if "UPOS" ∉ t.columns then .error ("Falta columna 'UPOS'.")
  else
    let dvals := List.insertionSort strLe (dedupFirst ((depPairs t).map Prod.fst))
    let uvals := List.insertionSort strLe (dedupFirst ((depPairs t).map Prod.snd))
    .ok ⟨uvals, dvals.map (fun dv =>
      (dv, uvals.map (fun u => round2c (depCellCount t dv u) (depRowTotal t dv))))⟩

/-! ### The stats bundle (`build_all_stats`) -/

/-- The value types of the stats bundle's tables. -/
inductive StatsEntry where
  | counts : List (String × Nat) → StatsEntry
  | posTab : List (String × Nat × Nat) → StatsEntry
  | lens : List (Nat × Nat) → StatsEntry
  | coocTab : List ((String × String) × Nat) → StatsEntry
  | matrix : DepMatrix → StatsEntry
deriving DecidableEq

/-- `build_all_stats`: the named bundle, built in source order, with
`ner_counts`'s failure — alone — recovered to an empty table. -/
def build_all_stats (t : Table) (top_lemmas window_cooc : Nat) (exclude_tokens : List String) :
    Except String (List (String × StatsEntry)) :=
  match pos_counts t with
  | .error e => .error e
  | .ok posv =>
  match lemma_freqs t top_lemmas with
  | .error e => .error e
  | .ok lemv =>
  let nerv := match ner_counts t true with
    | .error _ => []
    | .ok v => v
  match deprel_counts t with
  | .error e => .error e
  | .ok depv =>
  match sentence_lengths t with
  | .error e => .error e
  | .ok lenv =>
  match cooccurrences_within_window t window_cooc true true exclude_tokens true (some 200) with
  | .error e => .error e
  | .ok coocv =>
  match dependency_role_matrix t with
  | .error e => .error e
  | .ok mv =>
  .ok [("pos", .posTab posv), ("lemmas", .counts lemv), ("ner", .counts nerv),
       ("deprel", .counts depv), ("lengths", .lens lenv), ("cooc", .coocTab coocv),
       ("dep_matrix_pct", .matrix mv)]

/-- Whether an `Except` result is a success. -/
def okB {ε α : Type} : Except ε α → Bool
  | .ok _ => true
  | .error _ => false

/-! ### Stats-function dispatcher (for the missing-column contract) -/

/-- The stats-engine entry points, each with its parameters. -/
inductive StatsFn where
  | posF : StatsFn
  | lemmasF : Nat → StatsFn
  | nerF : Bool → StatsFn
  | deprelF : StatsFn
  | topByUposF : String → Nat → StatsFn
  | lengthsF : StatsFn
  | coocF : Nat → Bool → Bool → List String → Bool → Option Nat → StatsFn
  | depMatrixF : StatsFn

/-- The columns each function requires of its input table (the ones it
checks explicitly plus the ones its pandas accesses require). -/
def requiredCols : StatsFn → List String
  | .posF => ["UPOS"]
  | .lemmasF _ => ["LEMMA"]
  | .nerF _ => ["NER"]
  | .deprelF => ["DEPREL"]
  | .topByUposF _ _ => ["UPOS", "LEMMA"]
  | .lengthsF => ["sent_ix", "FORM"]
  | .coocF _ _ _ _ _ _ => ["FORM", "LEMMA", "sent_ix", "tok_ix"]
  | .depMatrixF => ["DEPREL", "UPOS"]

/-- Run a stats function, keeping only success or the error message. -/
def runStats : StatsFn → Table → Except String Unit
  | .posF, t => (pos_counts t).map (fun _ => ())
  | .lemmasF top, t => (lemma_freqs t top).map (fun _ => ())
  | .nerF dropO, t => (ner_counts t dropO).map (fun _ => ())
  | .deprelF, t => (deprel_counts t).map (fun _ => ())
  | .topByUposF u top, t => (top_lemmas_by_upos t u top).map (fun _ => ())
  | .lengthsF, t => (sentence_lengths t).map (fun _ => ())
  | .coocF w bs lc ex ul top, t =>
    (cooccurrences_within_window t w bs lc ex ul top).map (fun _ => ())
  | .depMatrixF, t => (dependency_role_matrix t).map (fun _ => ())

/-- `needle` occurs as a contiguous substring of `hay`. -/
def containsSub (needle hay : List Char) : Bool :=
  hay.tails.any (fun suf => needle.isPrefixOf suf)

/-- The error message names the column: the single-quoted column name
occurs in it. -/
def mentionsCol (msg col : String) : Prop :=
  containsSub ("'" ++ col ++ "'").data msg.data = true

instance (msg col : String) : Decidable (mentionsCol msg col) := instDecidableEqBool _ _

/-! ### Processor-string validator (`modules/utils.py`) -/

/-- The known processor names. -/
def ALLOWED_PROCESSORS : List String := ["tokenize", "mwt", "pos", "lemma", "depparse", "ner"]

/-- The priority of a processor name (`999` for unknown ones). -/
def procPriority (x : String) : Nat :=
  if x = "tokenize" then 0 else if x = "mwt" then 1 else if x = "pos" then 2
  else if x = "lemma" then 3 else if x = "depparse" then 4 else if x = "ner" then 5 else 999

/-- The sort key order of the priority sort. -/
def procLe (a b : String) : Prop := procPriority a ≤ procPriority b

instance : DecidableRel procLe := fun _ _ => Nat.decLe _ _

instance : IsTotal String procLe := ⟨fun _ _ => Nat.le_total _ _⟩

instance : IsTrans String procLe := ⟨fun _ _ _ h1 h2 => Nat.le_trans h1 h2⟩

/-- `validate_processors`: split on commas, strip, drop empties,
de-duplicate first-seen, warn about unknowns, stable-sort by priority,
then force `tokenize` first (with a warning) if the sort left it
elsewhere.  Returns the normalised comma-joined string and the
warnings. -/
def partsRaw (proc_str : String) : List String :=
  ((splitChar ',' proc_str.data).map (fun c => pyStrip (String.mk c))).filter (fun p => p != "")

def validate_processors (proc_str : String) : String × List String :=
  let parts := dedupFirst (partsRaw proc_str)
  let unknown := parts.filter (fun p => p ∉ ALLOWED_PROCESSORS)
  let warnings1 : List String :=
    if unknown.isEmpty then [] else ["Procesadores no reconocidos: " ++ joinStr ", " unknown]
  let parts_sorted := List.insertionSort procLe parts
  if "tokenize" ∈ parts_sorted ∧ parts_sorted.head? ≠ some "tokenize" then
    (joinStr "," ("tokenize" :: parts_sorted.erase "tokenize"),
     warnings1 ++ ["Reordenado: 'tokenize' movido al inicio."])
  else (joinStr "," parts_sorted, warnings1)

/-! ## Shared lemmas -/

theorem strLtB_irrefl (l : List Char) : strLtB l l = false := by
  induction l with
  | nil => rfl
  | cons c cs ih => simp [strLtB, ih]

theorem strLtB_asymm {x y : List Char} (h : strLtB x y = true) : strLtB y x = false := by
  induction x generalizing y with
  | nil =>
    cases y with
    | nil => simp [strLtB] at h
    | cons d ds => simp [strLtB]
  | cons c cs ih =>
    cases y with
    | nil => simp [strLtB] at h
    | cons d ds =>
      simp only [strLtB] at h ⊢
      split_ifs at h ⊢ <;> first | rfl | omega | exact ih h

theorem pyStrLt_asymm {a b : String} (h : pyStrLt a b = true) : pyStrLt b a = false :=
  strLtB_asymm h

theorem pyStrLt_ne {a b : String} (h : pyStrLt a b = true) : a ≠ b := by
  intro e
  subst e
  simp [pyStrLt, strLtB_irrefl] at h

/-! ## Claim C3: `validate_processors "ner,tokenize,pos"` -/

/-- C3 (counterexample): on the input `"ner,tokenize,pos"` the warning
list is empty — contrary to the claim, no reorder warning is emitted,
because the priority sort itself already moved `tokenize` to the front
and the defensive second pass therefore does not fire. -/
theorem c3_counterexample : (validate_processors "ner,tokenize,pos").2 = [] := by decide

/-- C3 (amended): `validate_processors "ner,tokenize,pos"` returns the
normalized string `"tokenize,pos,ner"` together with an *empty* warning
list: the stable priority sort already places `tokenize` first, so the
defensive force-to-front pass (the only source of the reorder warning)
is not triggered. -/
theorem c3_validate_amended :
    validate_processors "ner,tokenize,pos" = ("tokenize,pos,ner", []) := by decide

/-! ## Claim C7: placeholders for missing optional fields -/

/-- C7 (counterexample): a word with a missing (None) lemma renders in
the CoNLL-U line as the literal `"None"` (Python `str(None)`), not as
the placeholder `"_"` the claim asserts for both renderers. -/
theorem c7_counterexample :
    conlluWordLine
        { id := 1, text := "x", lemma' := none, upos := none, xpos := none,
          feats := none, head := none, deprel := none } =
      ["1", "x", "None", "None", "_", "_", "0", "None", "_", "_"] ∧
    ("None" : String) ≠ "_" := by decide

/-- C7 (amended): serialization is total on missing optional fields,
and the placeholders are: in the tabular renderer, missing
lemma/UPOS/XPOS/DEPREL all render as `"_"` and a missing HEAD as `"0"`;
in the CoNLL-U renderer, missing XPOS and FEATS render as `"_"` and a
missing HEAD as `"0"`, but missing lemma/UPOS/DEPREL render as
`str(None) = "None"`. -/
theorem c7_placeholders_amended (s_ix t_ix i : Nat) (txt toktxt btag : String)
    (rest : List Word) :
    tokRowCells s_ix t_ix
        { text := toktxt,
          word0 := { id := i, text := txt, lemma' := none, upos := none, xpos := none,
                     feats := none, head := none, deprel := none },
          wordsRest := rest } btag =
      [natStr s_ix, natStr t_ix, toktxt, "_", "_", "_", "0", "_", btag] ∧
    conlluWordLine
        { id := i, text := txt, lemma' := none, upos := none, xpos := none,
          feats := none, head := none, deprel := none } =
      [natStr i, txt, "None", "None", "_", "_", "0", "None", "_", "_"] := by
  exact ⟨rfl, rfl⟩

/-! ## Claim C2: window-1 co-occurrences on a three-token sentence -/

/-- C2 (counterexample): on the one-sentence table with the three
tokens `a`, `b`, `c` and window 1, the code returns each adjacent pair
with count 2 (once per endpoint of the unordered pair), not count 1 as
the claim states; the result differs from the claimed pair map in
either ordering of its two entries. -/
theorem c2_counterexample :
    cooccurrences_within_window
        ⟨["sent_ix", "tok_ix", "FORM", "LEMMA"],
         [["1", "1", "a", "a"], ["1", "2", "b", "b"], ["1", "3", "c", "c"]]⟩
        1 true true [] true (some 200) =
      .ok [(("a", "b"), 2), (("b", "c"), 2)] ∧
    (Except.ok [(("a", "b"), 2), (("b", "c"), 2)] : Except String (List ((String × String) × Nat))) ≠
      .ok [(("a", "b"), 1), (("b", "c"), 1)] ∧
    (Except.ok [(("a", "b"), 2), (("b", "c"), 2)] : Except String (List ((String × String) × Nat))) ≠
      .ok [(("b", "c"), 1), (("a", "b"), 1)] := by decide

/-- C2 (amended): for the input table of one sentence with the three
tokens `[a, b, c]` (lower-cased forms in ascending order) and
window 1, `cooccurrences_within_window` returns exactly the pairs
`{(a,b): 2, (b,c): 2}` — each adjacent unordered pair is counted once
from each of its two endpoints, and no `(a,c)` pair appears since its
distance 2 exceeds the window 1. -/
theorem coocSentPairs_window1_three (x y z : String)
    (hxy : pyStrLt x y = true) (hyz : pyStrLt y z = true) :
    coocSentPairs 1 [x, y, z] [] = [((x, y), 2), ((y, z), 2)] := by
  have h1 : pyStrLt y x = false := pyStrLt_asymm hxy
  have h2 : pyStrLt z y = false := pyStrLt_asymm hyz
  have n1 : x ≠ y := pyStrLt_ne hxy
  have n2 : y ≠ z := pyStrLt_ne hyz
  have hr : List.range 3 = [0, 1, 2] := rfl
  simp only [coocSentPairs, List.length_cons, List.length_nil, hr, pyRange]
  norm_num [List.range', bump, pairKey, h1, h2, hxy, hyz, List.getD, n1, n2,
    Ne.symm n1, Ne.symm n2]

theorem c2_cooc_window_amended (a b c : String)
    (hab : pyStrLt (pyLower a) (pyLower b) = true)
    (hbc : pyStrLt (pyLower b) (pyLower c) = true) :
    cooccurrences_within_window
        ⟨["sent_ix", "tok_ix", "FORM", "LEMMA"],
         [["1", "1", a, a], ["1", "2", b, b], ["1", "3", c, c]]⟩
        1 true true [] true (some 200) =
      .ok [((pyLower a, pyLower b), 2), ((pyLower b, pyLower c), 2)] := by
  have h := coocSentPairs_window1_three (pyLower a) (pyLower b) (pyLower c) hab hbc
  have e1 : coocSelect
      ⟨["sent_ix", "tok_ix", "FORM", "LEMMA"],
       [["1", "1", a, a], ["1", "2", b, b], ["1", "3", c, c]]⟩ "LEMMA" =
      [("1", "1", a), ("1", "2", b), ("1", "3", c)] := rfl
  have e2 : coocLower true [("1", "1", a), ("1", "2", b), ("1", "3", c)] =
      [("1", "1", pyLower a), ("1", "2", pyLower b), ("1", "3", pyLower c)] := rfl
  have e3 : coocExclude true []
      [("1", "1", pyLower a), ("1", "2", pyLower b), ("1", "3", pyLower c)] =
      [("1", "1", pyLower a), ("1", "2", pyLower b), ("1", "3", pyLower c)] := rfl
  have e4 : coocGroups true
      [("1", "1", pyLower a), ("1", "2", pyLower b), ("1", "3", pyLower c)] =
      [[("1", "1", pyLower a), ("1", "2", pyLower b), ("1", "3", pyLower c)]] := rfl
  have e5 : coocPairs 1
      [[("1", "1", pyLower a), ("1", "2", pyLower b), ("1", "3", pyLower c)]] =
      coocSentPairs 1 [pyLower a, pyLower b, pyLower c] [] := by
    simp only [coocPairs, List.foldl]
    congr 1
  have hpairs : coocPairs 1 (coocGroups true (coocExclude true [] (coocLower true (coocSelect
      ⟨["sent_ix", "tok_ix", "FORM", "LEMMA"],
       [["1", "1", a, a], ["1", "2", b, b], ["1", "3", c, c]]⟩
      (if true then "LEMMA" else "FORM"))))) =
      [((pyLower a, pyLower b), 2), ((pyLower b, pyLower c), 2)] := by
    rw [show (if (true : Bool) then ("LEMMA" : String) else "FORM") = "LEMMA" from rfl,
      e1, e2, e3, e4, e5, h]
  have hr1 : requireCol
      ⟨["sent_ix", "tok_ix", "FORM", "LEMMA"],
       [["1", "1", a, a], ["1", "2", b, b], ["1", "3", c, c]]⟩ "sent_ix" =
      .ok ["1", "1", "1"] := rfl
  have hr2 : requireCol
      ⟨["sent_ix", "tok_ix", "FORM", "LEMMA"],
       [["1", "1", a, a], ["1", "2", b, b], ["1", "3", c, c]]⟩ "tok_ix" =
      .ok ["1", "2", "3"] := rfl
  unfold cooccurrences_within_window
  rw [if_neg (not_not_intro ⟨by simp, by simp⟩), hr1, hr2, hpairs]
  rfl

/-- C2 (witness for the amended theorem): the hypotheses hold at the
concrete tokens `"a"`, `"b"`, `"c"`. -/
theorem c2_cooc_window_amended_witness :
    cooccurrences_within_window
        ⟨["sent_ix", "tok_ix", "FORM", "LEMMA"],
         [["1", "1", "a", "a"], ["1", "2", "b", "b"], ["1", "3", "c", "c"]]⟩
        1 true true [] true (some 200) =
      .ok [((pyLower "a", pyLower "b"), 2), ((pyLower "b", pyLower "c"), 2)] :=
  c2_cooc_window_amended "a" "b" "c" (by decide) (by decide)

/-! ## Claim C6: missing-column errors -/

/-- C6: for every stats-engine function and every input table missing a
column the function requires, the function fails with a missing-column
error naming an absent required column (the function's own
`Falta columna '…'.` check, or the pandas `KeyError` of the column
access for the requirements the source does not check explicitly). -/
theorem c6_missing_column (f : StatsFn) (t : Table) (c : String)
    (hreq : c ∈ requiredCols f) (hmiss : c ∉ t.columns) :
    ∃ msg c', runStats f t = .error msg ∧ c' ∈ requiredCols f ∧ c' ∉ t.columns ∧
      mentionsCol msg c' := by
  cases f with
  | posF =>
    simp only [requiredCols, List.mem_singleton] at hreq
    subst hreq
    exact ⟨"Falta columna 'UPOS'.", "UPOS", by simp [runStats, pos_counts, hmiss, Except.map],
      by simp [requiredCols], hmiss, by decide⟩
  | lemmasF top =>
    simp only [requiredCols, List.mem_singleton] at hreq
    subst hreq
    exact ⟨"Falta columna 'LEMMA'.", "LEMMA", by simp [runStats, lemma_freqs, hmiss, Except.map],
      by simp [requiredCols], hmiss, by decide⟩
  | nerF dropO =>
    simp only [requiredCols, List.mem_singleton] at hreq
    subst hreq
    exact ⟨"Falta columna 'NER'.", "NER", by simp [runStats, ner_counts, hmiss, Except.map],
      by simp [requiredCols], hmiss, by decide⟩
  | deprelF =>
    simp only [requiredCols, List.mem_singleton] at hreq
    subst hreq
    exact ⟨"Falta columna 'DEPREL'.", "DEPREL", by simp [runStats, deprel_counts, hmiss, Except.map],
      by simp [requiredCols], hmiss, by decide⟩
  | topByUposF u top =>
    by_cases hU : "UPOS" ∈ t.columns
    · have hc : c = "LEMMA" := by
        simp only [requiredCols, List.mem_cons, List.not_mem_nil, or_false] at hreq
        rcases hreq with h | h
        · exact absurd (h ▸ hU) hmiss
        · exact h
      subst hc
      exact ⟨"Falta columna 'LEMMA'.", "LEMMA",
        by simp [runStats, top_lemmas_by_upos, hU, hmiss, Except.map],
        by simp [requiredCols], hmiss, by decide⟩
    · exact ⟨"Falta columna 'UPOS'.", "UPOS",
        by simp [runStats, top_lemmas_by_upos, hU, Except.map],
        by simp [requiredCols], hU, by decide⟩
  | lengthsF =>
    by_cases hS : "sent_ix" ∈ t.columns
    · have hc : c = "FORM" := by
        simp only [requiredCols, List.mem_cons, List.not_mem_nil, or_false] at hreq
        rcases hreq with h | h
        · exact absurd (h ▸ hS) hmiss
        · exact h
      subst hc
      exact ⟨"KeyError: 'FORM'", "FORM",
        by simp [runStats, sentence_lengths, hS, requireCol, hmiss, Except.map],
        by simp [requiredCols], hmiss, by decide⟩
    · exact ⟨"Falta columna 'sent_ix'.", "sent_ix",
        by simp [runStats, sentence_lengths, hS, Except.map],
        by simp [requiredCols], hS, by decide⟩
  | coocF w bs lc ex ul top =>
    by_cases hF : "FORM" ∈ t.columns
    · by_cases hL : "LEMMA" ∈ t.columns
      · by_cases hS : "sent_ix" ∈ t.columns
        · have hc : c = "tok_ix" := by
            simp only [requiredCols, List.mem_cons, List.not_mem_nil, or_false] at hreq
            rcases hreq with h | h | h | h
            · exact absurd (h ▸ hF) hmiss
            · exact absurd (h ▸ hL) hmiss
            · exact absurd (h ▸ hS) hmiss
            · exact h
          subst hc
          exact ⟨"KeyError: 'tok_ix'", "tok_ix",
            by simp [runStats, cooccurrences_within_window, hF, hL, hS, requireCol, hmiss,
              Except.map],
            by simp [requiredCols], hmiss, by decide⟩
        · exact ⟨"KeyError: 'sent_ix'", "sent_ix",
            by simp [runStats, cooccurrences_within_window, hF, hL, hS, requireCol, Except.map],
            by simp [requiredCols], hS, by decide⟩
      · exact ⟨"Faltan columnas 'FORM' / 'LEMMA'.", "LEMMA",
          by simp [runStats, cooccurrences_within_window, hL, Except.map],
          by simp [requiredCols], hL, by decide⟩
    · exact ⟨"Faltan columnas 'FORM' / 'LEMMA'.", "FORM",
        by simp [runStats, cooccurrences_within_window, hF, Except.map],
        by simp [requiredCols], hF, by decide⟩
  | depMatrixF =>
    by_cases hD : "DEPREL" ∈ t.columns
    · have hc : c = "UPOS" := by
        simp only [requiredCols, List.mem_cons, List.not_mem_nil, or_false] at hreq
        rcases hreq with h | h
        · exact absurd (h ▸ hD) hmiss
        · exact h
      subst hc
      exact ⟨"Falta columna 'UPOS'.", "UPOS",
        by simp [runStats, dependency_role_matrix, hD, hmiss, Except.map],
        by simp [requiredCols], hmiss, by decide⟩
    · exact ⟨"Falta columna 'DEPREL'.", "DEPREL",
        by simp [runStats, dependency_role_matrix, hD, Except.map],
        by simp [requiredCols], hD, by decide⟩

/-- C6 (witness): at the empty table, every function's `UPOS`-or-first
required column is missing and the missing-column error is produced. -/
theorem c6_missing_column_witness :
    ("UPOS" ∈ requiredCols StatsFn.posF ∧ "UPOS" ∉ (Table.mk [] []).columns) ∧
    ∃ msg c', runStats StatsFn.posF (Table.mk [] []) = .error msg ∧
      c' ∈ requiredCols StatsFn.posF ∧ c' ∉ (Table.mk [] []).columns ∧ mentionsCol msg c' :=
  ⟨⟨by decide, by decide⟩,
   c6_missing_column StatsFn.posF (Table.mk [] []) "UPOS" (by decide) (by decide)⟩

/-! ## Lemmas on `dedupFirst` and counting sums -/

theorem dedupFirstAux_subset {α : Type} [DecidableEq α] (seen l : List α) :
    ∀ x ∈ dedupFirstAux seen l, x ∈ l := by
  induction l generalizing seen with
  | nil => intro x hx; simp [dedupFirstAux] at hx
  | cons p rest ih =>
    intro x hx
    simp only [dedupFirstAux] at hx
    by_cases hp : p ∈ seen
    · simp only [if_pos hp] at hx
      exact List.mem_cons_of_mem _ (ih seen x hx)
    · simp only [if_neg hp, List.mem_cons] at hx
      rcases hx with h | h
      · exact h ▸ List.mem_cons_self _ _
      · exact List.mem_cons_of_mem _ (ih (p :: seen) x h)

theorem mem_dedupFirstAux_of_mem {α : Type} [DecidableEq α] (seen l : List α) (x : α)
    (hx : x ∈ l) : x ∈ seen ∨ x ∈ dedupFirstAux seen l := by
  induction l generalizing seen with
  | nil => simp at hx
  | cons p rest ih =>
    simp only [dedupFirstAux]
    rcases List.mem_cons.mp hx with h | h
    · subst h
      by_cases hp : x ∈ seen
      · exact Or.inl hp
      · simp [if_neg hp]
    · by_cases hp : p ∈ seen
      · simpa [if_pos hp] using ih seen h
      · rcases ih (p :: seen) h with hs | hd
        · rcases List.mem_cons.mp hs with h1 | h1
          · simp [if_neg hp, h1]
          · exact Or.inl h1
        · simp [if_neg hp, hd]

theorem dedupFirstAux_nodup {α : Type} [DecidableEq α] (seen l : List α) :
    (dedupFirstAux seen l).Nodup ∧ ∀ x ∈ dedupFirstAux seen l, x ∉ seen := by
  induction l generalizing seen with
  | nil => simp [dedupFirstAux]
  | cons p rest ih =>
    simp only [dedupFirstAux]
    by_cases hp : p ∈ seen
    · simpa [if_pos hp] using ih seen
    · have ihp := ih (p :: seen)
      refine ⟨?_, ?_⟩
      · simp only [if_neg hp, List.nodup_cons]
        exact ⟨fun hmem => (ihp.2 p hmem) (List.mem_cons_self _ _), ihp.1⟩
      · intro x hx
        simp only [if_neg hp, List.mem_cons] at hx
        rcases hx with h | h
        · exact h ▸ hp
        · exact fun hs => (ihp.2 x h) (List.mem_cons_of_mem _ hs)

theorem mem_dedupFirst_iff {α : Type} [DecidableEq α] (l : List α) (x : α) :
    x ∈ dedupFirst l ↔ x ∈ l := by
  constructor
  · exact fun h => dedupFirstAux_subset [] l x h
  · intro h
    rcases mem_dedupFirstAux_of_mem [] l x h with hs | hd
    · simp at hs
    · exact hd

theorem dedupFirst_nodup {α : Type} [DecidableEq α] (l : List α) : (dedupFirst l).Nodup :=
  (dedupFirstAux_nodup [] l).1

theorem sum_map_add_nat {α : Type} (S : List α) (g h : α → Nat) :
    (S.map (fun u => g u + h u)).sum = (S.map g).sum + (S.map h).sum := by
  induction S with
  | nil => simp
  | cons a S ih => simp [ih]; omega

theorem sum_indicator_one {α : Type} [DecidableEq α] (S : List α) (v : α)
    (hnd : S.Nodup) (hv : v ∈ S) :
    (S.map (fun u => if v = u then 1 else 0)).sum = 1 := by
  induction S with
  | nil => simp at hv
  | cons a S ih =>
    rcases List.mem_cons.mp hv with h | h
    · subst h
      have : ∀ u ∈ S, (if v = u then 1 else 0) = 0 := by
        intro u hu
        have : v ≠ u := fun e => (List.nodup_cons.mp hnd).1 (e ▸ hu)
        simp [this]
      simp [List.map_congr_left this]
    · have hne : a ≠ v := fun e => (List.nodup_cons.mp hnd).1 (e ▸ h)
      have := ih (List.nodup_cons.mp hnd).2 h
      simp [Ne.symm hne, this]

theorem filter_partition_sum (S : List String) (l : List (String × String)) (d : String)
    (hnd : S.Nodup) (hcov : ∀ p ∈ l, p.1 = d → p.2 ∈ S) :
    (S.map (fun u => (l.filter (fun p => p.1 == d && p.2 == u)).length)).sum =
      (l.filter (fun p => p.1 == d)).length := by
  induction l with
  | nil => simp
  | cons p l ih =>
    have ihl := ih (fun q hq => hcov q (List.mem_cons_of_mem _ hq))
    by_cases hpd : p.1 = d
    · have hps : p.2 ∈ S := hcov p (List.mem_cons_self _ _) hpd
      have hmap : (S.map (fun u => ((p :: l).filter (fun q => q.1 == d && q.2 == u)).length)) =
          S.map (fun u => (if p.2 = u then 1 else 0) +
            (l.filter (fun q => q.1 == d && q.2 == u)).length) := by
        apply List.map_congr_left
        intro u _
        by_cases hpu : p.2 = u
        · simp [List.filter_cons, hpd, hpu]
          omega
        · simp [List.filter_cons, hpd, hpu]
      rw [hmap, sum_map_add_nat, sum_indicator_one S p.2 hnd hps, ihl]
      simp [List.filter_cons, hpd]
      omega
    · have hmap : (S.map (fun u => ((p :: l).filter (fun q => q.1 == d && q.2 == u)).length)) =
          S.map (fun u => (l.filter (fun q => q.1 == d && q.2 == u)).length) := by
        apply List.map_congr_left
        intro u _
        simp [List.filter_cons, hpd]
      rw [hmap, ihl]
      simp [List.filter_cons, hpd]

/-! ## Claim C4: dependency-role-matrix row sums -/

theorem round2c_bounds (c den : Nat) (hden : den ≠ 0) :
    20000 * c ≤ 2 * den * round2c c den + den ∧
      2 * den * round2c c den ≤ 20000 * c + den := by
  have h := Nat.div_add_mod (20000 * c + den) (2 * den)
  have hmod : (20000 * c + den) % (2 * den) < 2 * den := Nat.mod_lt _ (by omega)
  unfold round2c
  omega

theorem sum_round2c_bounds (S : List String) (cnt : String → Nat) (den : Nat) (hden : den ≠ 0) :
    20000 * (S.map cnt).sum ≤
        2 * den * (S.map (fun u => round2c (cnt u) den)).sum + S.length * den ∧
      2 * den * (S.map (fun u => round2c (cnt u) den)).sum ≤
        20000 * (S.map cnt).sum + S.length * den := by
  induction S with
  | nil => simp
  | cons a S ih =>
    obtain ⟨h1, h2⟩ := ih
    obtain ⟨g1, g2⟩ := round2c_bounds (cnt a) den hden
    simp only [List.map_cons, List.sum_cons, List.length_cons]
    constructor
    · calc 20000 * (cnt a + (S.map cnt).sum)
          = 20000 * cnt a + 20000 * (S.map cnt).sum := by ring
        _ ≤ (2 * den * round2c (cnt a) den + den) +
              (2 * den * (S.map (fun u => round2c (cnt u) den)).sum + S.length * den) :=
            Nat.add_le_add g1 h1
        _ = 2 * den * (round2c (cnt a) den + (S.map (fun u => round2c (cnt u) den)).sum) +
              (S.length + 1) * den := by ring
    · calc 2 * den * (round2c (cnt a) den + (S.map (fun u => round2c (cnt u) den)).sum)
          = 2 * den * round2c (cnt a) den +
              2 * den * (S.map (fun u => round2c (cnt u) den)).sum := by ring
        _ ≤ (20000 * cnt a + den) + (20000 * (S.map cnt).sum + S.length * den) :=
            Nat.add_le_add g2 h2
        _ = 20000 * (cnt a + (S.map cnt).sum) + (S.length + 1) * den := by ring

/-- C4: for every input table having the DEPREL and UPOS columns, every
row of the `dependency_role_matrix` result sums to 100.00 within
rounding tolerance — in exact hundredths of a percent, the row sum is
within half a hundredth per cell of 10000 — unless the row's total
count is zero, in which case every cell is 0.00; the zero-total case
never yields a division error (and in fact never arises for observed
DEPREL values, every matrix row having a positive total). -/
theorem c4_row_sums (t : Table) (M : DepMatrix)
    (hDU : "DEPREL" ∈ t.columns ∧ "UPOS" ∈ t.columns)
    (hM : dependency_role_matrix t = .ok M) :
    ∀ dv cells, (dv, cells) ∈ M.rows →
      depRowTotal t dv ≠ 0 ∧
      (depRowTotal t dv = 0 → ∀ q ∈ cells, q = 0) ∧
      (20000 ≤ 2 * cells.sum + M.upos_vals.length ∧
        2 * cells.sum ≤ 20000 + M.upos_vals.length) := by
  obtain ⟨hD, hU⟩ := hDU
  rw [dependency_role_matrix, if_neg (by simp [hD]), if_neg (by simp [hU])] at hM
  have hM' := (Except.ok.injEq _ _).mp hM
  subst hM'
  intro dv cells hmem
  simp only [List.mem_map] at hmem
  obtain ⟨d, hd, hdc⟩ := hmem
  have hd1 : d = dv := congrArg Prod.fst hdc
  have hd2 := congrArg Prod.snd hdc
  simp only at hd1 hd2
  subst hd1
  -- the row's total is positive: d is an observed DEPREL value
  have hdv : d ∈ (depPairs t).map Prod.fst := by
    have h1 : d ∈ dedupFirst ((depPairs t).map Prod.fst) :=
      (List.perm_insertionSort strLe _).mem_iff.mp hd
    exact (mem_dedupFirst_iff _ _).mp h1
  obtain ⟨p, hp, hp1⟩ := List.mem_map.mp hdv
  have htot : depRowTotal t d ≠ 0 := by
    have : p ∈ (depPairs t).filter (fun q => q.1 == d) :=
      List.mem_filter.mpr ⟨hp, by simp [hp1]⟩
    have := List.length_pos.mpr (List.ne_nil_of_mem this)
    unfold depRowTotal
    omega
  refine ⟨htot, fun h0 => absurd h0 htot, ?_⟩
  -- the column values cover every row of the table
  have huvn : (List.insertionSort strLe (dedupFirst ((depPairs t).map Prod.snd))).Nodup :=
    (List.perm_insertionSort strLe _).symm.nodup (dedupFirst_nodup _)
  have hcov : ∀ q ∈ depPairs t, q.1 = d →
      q.2 ∈ List.insertionSort strLe (dedupFirst ((depPairs t).map Prod.snd)) := by
    intro q hq _
    exact (List.perm_insertionSort strLe _).symm.mem_iff.mp
      ((mem_dedupFirst_iff _ _).mpr (List.mem_map_of_mem Prod.snd hq))
  have hpart := filter_partition_sum
    (List.insertionSort strLe (dedupFirst ((depPairs t).map Prod.snd)))
    (depPairs t) d huvn hcov
  have hsum := sum_round2c_bounds
    (List.insertionSort strLe (dedupFirst ((depPairs t).map Prod.snd)))
    (fun u => depCellCount t d u) (depRowTotal t d) htot
  rw [show ((List.insertionSort strLe (dedupFirst ((depPairs t).map Prod.snd))).map
      (fun u => depCellCount t d u)).sum = depRowTotal t d from hpart] at hsum
  subst hd2
  obtain ⟨hs1, hs2⟩ := hsum
  set k := (List.insertionSort strLe (dedupFirst ((depPairs t).map Prod.snd))).length with hk
  set T := depRowTotal t d with hT
  set Q := ((List.insertionSort strLe (dedupFirst ((depPairs t).map Prod.snd))).map
    (fun u => round2c (depCellCount t d u) T)).sum with hQ
  constructor
  · have h1 : T * 20000 ≤ T * (2 * Q + k) := by
      calc T * 20000 = 20000 * T := by ring
        _ ≤ 2 * T * Q + k * T := hs1
        _ = T * (2 * Q + k) := by ring
    have := Nat.le_of_mul_le_mul_left h1 (Nat.pos_of_ne_zero htot)
    simpa [List.length_map] using this
  · have h2 : T * (2 * Q) ≤ T * (20000 + k) := by
      calc T * (2 * Q) = 2 * T * Q := by ring
        _ ≤ 20000 * T + k * T := hs2
        _ = T * (20000 + k) := by ring
    have := Nat.le_of_mul_le_mul_left h2 (Nat.pos_of_ne_zero htot)
    simpa [List.length_map] using this

/-- C4 (witness): the concrete table with rows
`(root, VERB), (nsubj, NOUN), (nsubj, PRON), (nsubj, NOUN)` has both
columns, and each matrix row's hundredths sum to 10000 within half a
hundredth per cell (`6667 + 3333 + 0` and `0 + 0 + 10000`). -/
theorem c4_row_sums_witness :
    ("DEPREL" ∈ (Table.mk ["DEPREL", "UPOS"]
        [["root", "VERB"], ["nsubj", "NOUN"], ["nsubj", "PRON"], ["nsubj", "NOUN"]]).columns ∧
      "UPOS" ∈ (Table.mk ["DEPREL", "UPOS"]
        [["root", "VERB"], ["nsubj", "NOUN"], ["nsubj", "PRON"], ["nsubj", "NOUN"]]).columns) ∧
    (("nsubj", [6667, 3333, 0]) ∈ (DepMatrix.mk ["NOUN", "PRON", "VERB"]
        [("nsubj", [6667, 3333, 0]), ("root", [0, 0, 10000])]).rows ∧
      depRowTotal (Table.mk ["DEPREL", "UPOS"]
        [["root", "VERB"], ["nsubj", "NOUN"], ["nsubj", "PRON"], ["nsubj", "NOUN"]]) "nsubj" ≠ 0 ∧
      20000 ≤ 2 * ([6667, 3333, 0] : List Nat).sum + 3 ∧
      2 * ([6667, 3333, 0] : List Nat).sum ≤ 20000 + 3) := by
  have h := c4_row_sums
    (Table.mk ["DEPREL", "UPOS"]
      [["root", "VERB"], ["nsubj", "NOUN"], ["nsubj", "PRON"], ["nsubj", "NOUN"]])
    (DepMatrix.mk ["NOUN", "PRON", "VERB"]
      [("nsubj", [6667, 3333, 0]), ("root", [0, 0, 10000])])
    ⟨by decide, by decide⟩ (by decide) "nsubj" [6667, 3333, 0] (by decide)
  exact ⟨⟨by decide, by decide⟩, by decide, h.1, h.2.2⟩

/-! ## Claim C9: `build_all_stats` local recovery and propagation -/

/-- C9: when the table lacks the NER column (so `ner_counts` would fail
with its missing-column error), `build_all_stats` substitutes an empty
table under the key `ner` instead of propagating the failure; every
other component failure propagates to the caller uncaught: an error
result of the bundle is the error of one of the other six components,
and the bundle succeeds exactly when all six succeed. -/
theorem c9_build_all_stats (t : Table) (top_lemmas window_cooc : Nat) (ex : List String) :
    (∀ res, build_all_stats t top_lemmas window_cooc ex = .ok res →
      "NER" ∉ t.columns → res.lookup "ner" = some (.counts [])) ∧
    (∀ e, build_all_stats t top_lemmas window_cooc ex = .error e →
      pos_counts t = .error e ∨ lemma_freqs t top_lemmas = .error e ∨
      deprel_counts t = .error e ∨ sentence_lengths t = .error e ∨
      cooccurrences_within_window t window_cooc true true ex true (some 200) = .error e ∨
      dependency_role_matrix t = .error e) ∧
    (okB (build_all_stats t top_lemmas window_cooc ex) = true ↔
      okB (pos_counts t) = true ∧ okB (lemma_freqs t top_lemmas) = true ∧
      okB (deprel_counts t) = true ∧ okB (sentence_lengths t) = true ∧
      okB (cooccurrences_within_window t window_cooc true true ex true (some 200)) = true ∧
      okB (dependency_role_matrix t) = true) := by
  cases hp : pos_counts t with
  | error e0 => simp [build_all_stats, hp, okB]
  | ok posv =>
  cases hl : lemma_freqs t top_lemmas with
  | error e0 => simp [build_all_stats, hp, hl, okB]
  | ok lemv =>
  cases hd : deprel_counts t with
  | error e0 => simp [build_all_stats, hp, hl, hd, okB]
  | ok depv =>
  cases hs : sentence_lengths t with
  | error e0 => simp [build_all_stats, hp, hl, hd, hs, okB]
  | ok lenv =>
  cases hc : cooccurrences_within_window t window_cooc true true ex true (some 200) with
  | error e0 => simp [build_all_stats, hp, hl, hd, hs, hc, okB]
  | ok coocv =>
  cases hm : dependency_role_matrix t with
  | error e0 => simp [build_all_stats, hp, hl, hd, hs, hc, hm, okB]
  | ok mv =>
  refine ⟨?_, ?_, ?_⟩
  · intro res hres hner
    have hn : ner_counts t true = .error ("Falta columna 'NER'.") := by
      simp [ner_counts, hner]
    simp only [build_all_stats, hp, hl, hd, hs, hc, hm, hn] at hres
    have : res = [("pos", .posTab posv), ("lemmas", .counts lemv), ("ner", .counts []),
        ("deprel", .counts depv), ("lengths", .lens lenv), ("cooc", .coocTab coocv),
        ("dep_matrix_pct", .matrix mv)] := by
      exact (Except.ok.injEq _ _).mp hres.symm
    subst this
    rfl
  · intro e he
    simp only [build_all_stats, hp, hl, hd, hs, hc, hm] at he
    cases hn : ner_counts t true <;> simp [hn] at he
  · constructor
    · intro _
      simp [hp, hl, hd, hs, hc, hm, okB]
    · intro _
      simp only [build_all_stats, hp, hl, hd, hs, hc, hm]
      cases hn : ner_counts t true <;> simp [okB]

/-- C9 (witness): a concrete eight-column table without NER — one
sentence of two adjacent tokens, so the co-occurrence step counts a
pair and the whole bundle succeeds — loads, builds, and carries the
empty `ner` table. -/
theorem c9_build_all_stats_witness :
    ("NER" ∉ (Table.mk ["sent_ix", "tok_ix", "FORM", "LEMMA", "UPOS", "XPOS", "HEAD", "DEPREL"]
        [["1", "1", "a", "a", "NOUN", "_", "0", "root"],
         ["1", "2", "b", "b", "NOUN", "_", "2", "nsubj"]]).columns) ∧
    (build_all_stats (Table.mk ["sent_ix", "tok_ix", "FORM", "LEMMA", "UPOS", "XPOS", "HEAD", "DEPREL"]
        [["1", "1", "a", "a", "NOUN", "_", "0", "root"],
         ["1", "2", "b", "b", "NOUN", "_", "2", "nsubj"]]) 50 2 []).toOption.bind
      (List.lookup "ner") = some (.counts []) := by
  have h9 := (c9_build_all_stats
    (Table.mk ["sent_ix", "tok_ix", "FORM", "LEMMA", "UPOS", "XPOS", "HEAD", "DEPREL"]
      [["1", "1", "a", "a", "NOUN", "_", "0", "root"],
       ["1", "2", "b", "b", "NOUN", "_", "2", "nsubj"]]) 50 2 []).1
  refine ⟨by decide, ?_⟩
  have hok : build_all_stats (Table.mk ["sent_ix", "tok_ix", "FORM", "LEMMA", "UPOS", "XPOS", "HEAD", "DEPREL"]
      [["1", "1", "a", "a", "NOUN", "_", "0", "root"],
       ["1", "2", "b", "b", "NOUN", "_", "2", "nsubj"]]) 50 2 [] =
      .ok [("pos", .posTab [("NOUN", 2, 10000)]), ("lemmas", .counts [("a", 1), ("b", 1)]),
           ("ner", .counts []), ("deprel", .counts [("root", 1), ("nsubj", 1)]),
           ("lengths", .lens [(1, 2)]), ("cooc", .coocTab [(("a", "b"), 2)]),
           ("dep_matrix_pct", .matrix ⟨["NOUN"], [("nsubj", [10000]), ("root", [10000])]⟩)] := by
    decide
  rw [hok]
  exact h9 _ hok (by decide)

/-! ## Claim C5: BIO alignment -/

theorem foldl_set_length (js : List Nat) (v : String) (tags : List String) :
    (js.foldl (fun t j => t.set j v) tags).length = tags.length := by
  induction js generalizing tags with
  | nil => rfl
  | cons j js ih => simp [ih]

theorem foldl_set_getElem?_ne (js : List Nat) (v : String) (tags : List String) (p : Nat)
    (hp : p ∉ js) : (js.foldl (fun t j => t.set j v) tags)[p]? = tags[p]? := by
  induction js generalizing tags with
  | nil => rfl
  | cons j js ih =>
    have hpj : p ≠ j := fun e => hp (e ▸ List.mem_cons_self _ _)
    have hpt : p ∉ js := fun h => hp (List.mem_cons_of_mem _ h)
    simp only [List.foldl_cons, ih _ hpt, List.getElem?_set, if_neg (Ne.symm hpj)]

theorem foldl_set_getElem?_mem (js : List Nat) (v : String) (tags : List String) (p : Nat)
    (hp : p ∈ js) (hlt : p < tags.length) :
    (js.foldl (fun t j => t.set j v) tags)[p]? = some v := by
  induction js generalizing tags with
  | nil => simp at hp
  | cons j js ih =>
    by_cases hpt : p ∈ js
    · exact List.foldl_cons _ _ ▸ ih (tags.set j v) hpt (by simpa using hlt)
    · have hpj : p = j := by
        rcases List.mem_cons.mp hp with h | h
        · exact h
        · exact absurd h hpt
      subst hpj
      rw [List.foldl_cons, foldl_set_getElem?_ne js v _ p hpt]
      simp [List.getElem?_set, hlt]

theorem applyEnt_length (n : Nat) (tags : List String) (e : Entity) :
    (applyEnt n tags e).length = tags.length := by
  unfold applyEnt
  cases h : List.insertionSort (fun a b => a ≤ b) (e.tokenIdxs.filter (fun i => i < n)) with
  | nil => rfl
  | cons i rest => simp [foldl_set_length]

theorem applyEnt_getElem?_ne (n : Nat) (tags : List String) (e : Entity) (p : Nat)
    (hp : p ∉ e.tokenIdxs) : (applyEnt n tags e)[p]? = tags[p]? := by
  have hps : p ∉ List.insertionSort (fun a b => a ≤ b) (e.tokenIdxs.filter (fun i => i < n)) := by
    intro hmem
    exact hp (List.mem_of_mem_filter ((List.perm_insertionSort _ _).mem_iff.mp hmem))
  unfold applyEnt
  cases h : List.insertionSort (fun a b => a ≤ b) (e.tokenIdxs.filter (fun i => i < n)) with
  | nil => rfl
  | cons i rest =>
    rw [h] at hps
    have hpi : p ≠ i := fun e => hps (e ▸ List.mem_cons_self _ _)
    have hpr : p ∉ rest := fun hm => hps (List.mem_cons_of_mem _ hm)
    simp only [foldl_set_getElem?_ne rest _ _ p hpr, List.getElem?_set, if_neg (Ne.symm hpi)]

theorem applyEnt_contiguous (n : Nat) (tags : List String) (e : Entity) (s k : Nat)
    (hcont : e.tokenIdxs = (List.range k).map (fun j => s + j))
    (hk : 0 < k) (hbound : s + k ≤ n) (hlen : tags.length = n) :
    (applyEnt n tags e)[s]? = some ("B-" ++ e.type) ∧
      ∀ j, 0 < j → j < k → (applyEnt n tags e)[s + j]? = some ("I-" ++ e.type) := by
  obtain ⟨k', rfl⟩ : ∃ k', k = k' + 1 := ⟨k - 1, by omega⟩
  have hfilter : e.tokenIdxs.filter (fun i => i < n) = e.tokenIdxs := by
    rw [List.filter_eq_self]
    intro x hx
    rw [hcont] at hx
    obtain ⟨j, hj, rfl⟩ := List.mem_map.mp hx
    have := List.mem_range.mp hj
    simp only [decide_eq_true_eq]
    omega
  have hsorted : List.Sorted (fun a b => a ≤ b) e.tokenIdxs := by
    rw [hcont]
    exact List.Pairwise.map _ (fun a b h => by omega) (List.pairwise_lt_range _)
  have hexp : e.tokenIdxs = s :: (List.range k').map (fun j => s + j + 1) := by
    rw [hcont, List.range_succ_eq_map, List.map_cons, List.map_map]
    have h1 : List.map ((fun j => s + j) ∘ Nat.succ) (List.range k') =
        List.map (fun j => s + j + 1) (List.range k') := by
      refine List.map_congr_left ?_
      intro j _
      simp only [Function.comp_apply]
      omega
    rw [h1]
    norm_num
  unfold applyEnt
  rw [hfilter, List.Sorted.insertionSort_eq hsorted, hexp]
  have hsrest : s ∉ (List.range k').map (fun j => s + j + 1) := by
    intro hm
    obtain ⟨j, _, hj⟩ := List.mem_map.mp hm
    omega
  have hslt : s < tags.length := by omega
  constructor
  · rw [foldl_set_getElem?_ne _ _ _ s hsrest]
    simp [List.getElem?_set, hslt]
  · intro j hj0 hjk
    have hmem : s + j ∈ (List.range k').map (fun i => s + i + 1) := by
      refine List.mem_map.mpr ⟨j - 1, List.mem_range.mpr (by omega), by omega⟩
    refine foldl_set_getElem?_mem _ _ _ _ hmem ?_
    simp only [List.length_set]
    omega

theorem foldl_applyEnt_length (n : Nat) (l : List Entity) (tags : List String) :
    (l.foldl (applyEnt n) tags).length = tags.length := by
  induction l generalizing tags with
  | nil => rfl
  | cons e l ih => simp [List.foldl_cons, ih, applyEnt_length]

theorem foldl_applyEnt_getElem?_ne (n : Nat) (l : List Entity) (tags : List String) (p : Nat)
    (hp : ∀ e ∈ l, p ∉ e.tokenIdxs) :
    (l.foldl (applyEnt n) tags)[p]? = tags[p]? := by
  induction l generalizing tags with
  | nil => rfl
  | cons e l ih =>
    rw [List.foldl_cons, ih _ (fun e' he' => hp e' (List.mem_cons_of_mem _ he')),
      applyEnt_getElem?_ne n tags e p (hp e (List.mem_cons_self _ _))]

/-- C5: for every Sentence and every Entity of it covering the
contiguous run of `k ≥ 1` tokens starting at position `s` (in bounds,
the sentence's entities pairwise disjoint), the BIO label array has
`B-<type>` at position `s` and `I-<type>` at the following `k − 1`
positions, every position covered by no entity is labelled `"O"`, and
the array has exactly one label per token of the sentence. -/
theorem c5_bio_alignment (sent : Sentence) (ent : Entity) (s k : Nat)
    (hment : ent ∈ sent.ents)
    (hcont : ent.tokenIdxs = (List.range k).map (fun j => s + j))
    (hk : 0 < k) (hbound : s + k ≤ sent.tokens.length)
    (hdisj : List.Pairwise (fun e1 e2 => ∀ x, x ∈ e1.tokenIdxs → x ∉ e2.tokenIdxs) sent.ents) :
    (bio_tags sent).length = sent.tokens.length ∧
    (bio_tags sent)[s]? = some ("B-" ++ ent.type) ∧
    (∀ j, 0 < j → j < k → (bio_tags sent)[s + j]? = some ("I-" ++ ent.type)) ∧
    (∀ p, p < sent.tokens.length → (∀ e ∈ sent.ents, p ∉ e.tokenIdxs) →
      (bio_tags sent)[p]? = some "O") := by
  set n := sent.tokens.length with hn
  obtain ⟨l₁, l₂, hsplit⟩ := List.append_of_mem hment
  have hlen : (bio_tags sent).length = n := by
    unfold bio_tags
    rw [foldl_applyEnt_length]
    simp [hn]
  have hmid : (l₁.foldl (applyEnt n) (List.replicate n "O")).length = n := by
    rw [foldl_applyEnt_length]
    simp
  have hl₂ : ∀ e' ∈ l₂, ∀ x, x ∈ ent.tokenIdxs → x ∉ e'.tokenIdxs := by
    have hpw := hsplit ▸ hdisj
    have h2 := (List.pairwise_append.mp hpw).2.1
    exact fun e' he' => (List.pairwise_cons.mp h2).1 e' he'
  have happ := applyEnt_contiguous n (l₁.foldl (applyEnt n) (List.replicate n "O")) ent s k
    hcont hk hbound hmid
  have hfold : bio_tags sent =
      l₂.foldl (applyEnt n) (applyEnt n (l₁.foldl (applyEnt n) (List.replicate n "O")) ent) := by
    unfold bio_tags
    rw [hsplit, List.foldl_append, List.foldl_cons]
  have hsm : s ∈ ent.tokenIdxs := by
    rw [hcont]
    exact List.mem_map.mpr ⟨0, List.mem_range.mpr hk, by omega⟩
  refine ⟨hlen, ?_, ?_, ?_⟩
  · rw [hfold, foldl_applyEnt_getElem?_ne _ _ _ s (fun e' he' => hl₂ e' he' s hsm)]
    exact happ.1
  · intro j hj0 hjk
    have hsjm : s + j ∈ ent.tokenIdxs := by
      rw [hcont]
      exact List.mem_map.mpr ⟨j, List.mem_range.mpr hjk, rfl⟩
    rw [hfold, foldl_applyEnt_getElem?_ne _ _ _ (s + j) (fun e' he' => hl₂ e' he' (s + j) hsjm)]
    exact happ.2 j hj0 hjk
  · intro p hp hpno
    unfold bio_tags
    rw [foldl_applyEnt_getElem?_ne _ _ _ _ (fun e he => hpno e he)]
    simp [List.getElem?_replicate, hp]

/-- C5 (witness): a three-token sentence whose single entity covers
tokens 1 and 2 yields labels `O, B-LOC, I-LOC`, and the uncovered
token 0 is `O`. -/
theorem c5_bio_alignment_witness :
    (bio_tags (Sentence.mk "t"
        [Token.mk "a" (Word.mk 1 "a" none none none none none none) [],
         Token.mk "b" (Word.mk 2 "b" none none none none none none) [],
         Token.mk "c" (Word.mk 3 "c" none none none none none none) []]
        [Entity.mk "LOC" [1, 2]])).length = 3 ∧
    (bio_tags (Sentence.mk "t"
        [Token.mk "a" (Word.mk 1 "a" none none none none none none) [],
         Token.mk "b" (Word.mk 2 "b" none none none none none none) [],
         Token.mk "c" (Word.mk 3 "c" none none none none none none) []]
        [Entity.mk "LOC" [1, 2]]))[1]? = some ("B-" ++ "LOC") ∧
    (∀ j, 0 < j → j < 2 → (bio_tags (Sentence.mk "t"
        [Token.mk "a" (Word.mk 1 "a" none none none none none none) [],
         Token.mk "b" (Word.mk 2 "b" none none none none none none) [],
         Token.mk "c" (Word.mk 3 "c" none none none none none none) []]
        [Entity.mk "LOC" [1, 2]]))[1 + j]? = some ("I-" ++ "LOC")) ∧
    (∀ p, p < 3 → (∀ e ∈ [Entity.mk "LOC" [1, 2]], p ∉ e.tokenIdxs) →
      (bio_tags (Sentence.mk "t"
        [Token.mk "a" (Word.mk 1 "a" none none none none none none) [],
         Token.mk "b" (Word.mk 2 "b" none none none none none none) [],
         Token.mk "c" (Word.mk 3 "c" none none none none none none) []]
        [Entity.mk "LOC" [1, 2]]))[p]? = some "O") :=
  c5_bio_alignment
    (Sentence.mk "t"
      [Token.mk "a" (Word.mk 1 "a" none none none none none none) [],
       Token.mk "b" (Word.mk 2 "b" none none none none none none) [],
       Token.mk "c" (Word.mk 3 "c" none none none none none none) []]
      [Entity.mk "LOC" [1, 2]])
    (Entity.mk "LOC" [1, 2]) 1 2 (by decide) (by decide) (by decide) (by decide) (by decide)

/-! ## Numeral lemmas: `str(n)` round-trips through the parser -/

theorem digitVal?_digitChar (d : Nat) (hd : d < 10) : digitVal? (digitChar d) = some d := by
  interval_cases d <;> rfl

theorem parseDigits_append (l1 l2 : List Char) (acc : Nat) :
    parseDigits (l1 ++ l2) acc =
      match parseDigits l1 acc with
      | some v => parseDigits l2 v
      | none => none := by
  induction l1 generalizing acc with
  | nil => rfl
  | cons c cs ih =>
    simp only [List.cons_append, parseDigits]
    cases digitVal? c with
    | none => rfl
    | some d => exact ih _

theorem natStrAux_ne_nil (fuel n : Nat) (h : 0 < fuel) : natStrAux fuel n ≠ [] := by
  obtain ⟨fuel, rfl⟩ : ∃ f, fuel = f + 1 := ⟨fuel - 1, by omega⟩
  by_cases h10 : n < 10
  · simp [natStrAux, h10]
  · simp [natStrAux, h10]

theorem parseDigits_natStrAux (fuel : Nat) : ∀ n acc, n < fuel →
    parseDigits (natStrAux fuel n) acc = some (acc * 10 ^ (natStrAux fuel n).length + n) := by
  induction fuel with
  | zero => intro n acc h; omega
  | succ fuel ih =>
    intro n acc h
    by_cases h10 : n < 10
    · rw [show natStrAux (fuel + 1) n = [digitChar n] from by simp [natStrAux, h10]]
      simp [parseDigits, digitVal?_digitChar n h10]
    · have hd : n / 10 < fuel := by
        have := Nat.div_lt_self (by omega : 0 < n) (by omega : 1 < 10)
        omega
      rw [show natStrAux (fuel + 1) n = natStrAux fuel (n / 10) ++ [digitChar (n % 10)] from by
        simp [natStrAux, h10]]
      rw [parseDigits_append, ih (n / 10) acc hd]
      have hm : digitVal? (digitChar (n % 10)) = some (n % 10) :=
        digitVal?_digitChar _ (Nat.mod_lt _ (by omega))
      simp only [parseDigits, hm, List.length_append, List.length_singleton]
      congr 1
      rw [pow_succ, ← Nat.mul_assoc]
      generalize acc * 10 ^ (natStrAux fuel (n / 10)).length = A
      omega

theorem parseNat10_natStr (n : Nat) : parseNat10 (natStr n) = some n := by
  have hne := natStrAux_ne_nil (n + 1) n (by omega)
  have hp := parseDigits_natStrAux (n + 1) n 0 (by omega)
  unfold natStr parseNat10
  cases hh : natStrAux (n + 1) n with
  | nil => exact absurd hh hne
  | cons c cs =>
    rw [hh] at hp
    simpa using hp

theorem natStr_injective {m n : Nat} (h : natStr m = natStr n) : m = n := by
  have hm := parseNat10_natStr m
  rw [h, parseNat10_natStr n] at hm
  exact (Option.some.inj hm).symm

/-! ## Claim C8: row counts and index ranges of the tabular rendering -/

theorem bio_tags_length (sent : Sentence) : (bio_tags sent).length = sent.tokens.length := by
  unfold bio_tags
  rw [foldl_applyEnt_length]
  simp

theorem tokRows_length (s_ix : Nat) (l : List (Token × String)) :
    ∀ t_ix, (tokRows s_ix t_ix l).length = l.length := by
  induction l with
  | nil => intro t_ix; rfl
  | cons p rest ih => intro t_ix; simp [tokRows, ih]

theorem sentRowsList_length (ss : List Sentence) :
    ∀ b, (sentRowsList b ss).length = (ss.map (fun s => s.tokens.length)).sum := by
  induction ss with
  | nil => intro b; rfl
  | cons s ss ih =>
    intro b
    simp [sentRowsList, tokRows_length, ih, List.length_zip, bio_tags_length]

theorem tokRows_rowSent (s_ix : Nat) (l : List (Token × String)) :
    ∀ t_ix, ∀ r ∈ tokRows s_ix t_ix l, rowSent r = natStr s_ix := by
  induction l with
  | nil => intro t_ix r hr; simp [tokRows] at hr
  | cons p rest ih =>
    intro t_ix r hr
    rcases List.mem_cons.mp hr with h | h
    · subst h; rfl
    · exact ih (t_ix + 1) r h

theorem tokRows_rowTok (s_ix : Nat) (l : List (Token × String)) :
    ∀ t_ix, (tokRows s_ix t_ix l).map rowTok =
      (List.range l.length).map (fun j => natStr (t_ix + j)) := by
  induction l with
  | nil => intro t_ix; rfl
  | cons p rest ih =>
    intro t_ix
    simp only [tokRows, List.map_cons, List.length_cons, List.range_succ_eq_map, List.map_map]
    have hhead : rowTok (tokRowCells s_ix t_ix p.1 p.2) = natStr (t_ix + 0) := by
      simp [rowTok, tokRowCells]
    rw [hhead, ih (t_ix + 1)]
    congr 1
    refine List.map_congr_left ?_
    intro j _
    simp only [Function.comp_apply]
    congr 1
    omega

theorem sentRows_rowSent_mem (ss : List Sentence) :
    ∀ b, ∀ r ∈ sentRowsList b ss, ∃ j, j < ss.length ∧ rowSent r = natStr (b + j) := by
  induction ss with
  | nil => intro b r hr; simp [sentRowsList] at hr
  | cons s ss ih =>
    intro b r hr
    rcases List.mem_append.mp hr with h | h
    · exact ⟨0, by simp, by simpa using tokRows_rowSent b _ 1 r h⟩
    · obtain ⟨j, hj, hrs⟩ := ih (b + 1) r h
      exact ⟨j + 1, by simpa using Nat.succ_lt_succ hj, by rw [hrs]; congr 1; omega⟩

theorem tokRows_ne_nil (s_ix t_ix : Nat) (sent : Sentence) (hne : sent.tokens ≠ []) :
    tokRows s_ix t_ix (sent.tokens.zip (bio_tags sent)) ≠ [] := by
  have hlen : (sent.tokens.zip (bio_tags sent)).length = sent.tokens.length := by
    simp [List.length_zip, bio_tags_length]
  intro h
  have := tokRows_length s_ix (sent.tokens.zip (bio_tags sent)) t_ix
  rw [h] at this
  simp only [List.length_nil] at this
  exact hne (List.eq_nil_of_length_eq_zero (by omega))

theorem filter_sentRowsList (ss : List Sentence) :
    ∀ b i, (hi : i < ss.length) →
      (sentRowsList b ss).filter (fun r => rowSent r == natStr (b + i)) =
        tokRows (b + i) 1 ((ss.get ⟨i, hi⟩).tokens.zip (bio_tags (ss.get ⟨i, hi⟩))) := by
  induction ss with
  | nil => intro b i hi; simp at hi
  | cons s ss ih =>
    intro b i hi
    rw [show sentRowsList b (s :: ss) =
      tokRows b 1 (s.tokens.zip (bio_tags s)) ++ sentRowsList (b + 1) ss from rfl]
    rw [List.filter_append]
    cases i with
    | zero =>
      have h1 : (tokRows b 1 (s.tokens.zip (bio_tags s))).filter
          (fun r => rowSent r == natStr (b + 0)) = tokRows b 1 (s.tokens.zip (bio_tags s)) := by
        rw [List.filter_eq_self]
        intro r hr
        rw [tokRows_rowSent b _ 1 r hr]
        simp [show b + 0 = b from rfl]
      have h2 : (sentRowsList (b + 1) ss).filter
          (fun r => rowSent r == natStr (b + 0)) = [] := by
        rw [List.filter_eq_nil_iff]
        intro r hr
        obtain ⟨j, _, hrs⟩ := sentRows_rowSent_mem ss (b + 1) r hr
        rw [hrs]
        simp only [beq_iff_eq]
        intro he
        have := natStr_injective he
        omega
      rw [h1, h2, List.append_nil]
      rfl
    | succ i' =>
      have hi' : i' < ss.length := by simpa using Nat.lt_of_succ_lt_succ hi
      have h1 : (tokRows b 1 (s.tokens.zip (bio_tags s))).filter
          (fun r => rowSent r == natStr (b + (i' + 1))) = [] := by
        rw [List.filter_eq_nil_iff]
        intro r hr
        rw [tokRows_rowSent b _ 1 r hr]
        simp only [beq_iff_eq]
        intro he
        have := natStr_injective he
        omega
      have h2 := ih (b + 1) i' hi'
      rw [h1, List.nil_append,
        show b + (i' + 1) = (b + 1) + i' from by omega, h2]
      rfl

/-- C8: for every Document all of whose sentences are nonempty, the
tabular serializer emits exactly one data row per token (the row count
is the total token count over all sentences); the `sent_ix` values
occurring are exactly the numerals `1 .. len(sentences)`; and within
sentence `i` the `tok_ix` values are exactly the numerals
`1 .. len(tokens)` in order, with no gaps. -/
theorem c8_row_counts (d : Document) (hne : ∀ s ∈ d.sentences, s.tokens ≠ []) :
    (doc_to_tsv_rows d).length = (d.sentences.map (fun s => s.tokens.length)).sum ∧
    (∀ k : Nat, natStr k ∈ (doc_to_tsv_rows d).map rowSent ↔
      1 ≤ k ∧ k ≤ d.sentences.length) ∧
    (∀ i, (hi : i < d.sentences.length) →
      ((doc_to_tsv_rows d).filter (fun r => rowSent r == natStr (i + 1))).map rowTok =
        (List.range (d.sentences.get ⟨i, hi⟩).tokens.length).map (fun j => natStr (1 + j))) := by
  refine ⟨sentRowsList_length d.sentences 1, ?_, ?_⟩
  · intro k
    constructor
    · intro hk
      obtain ⟨r, hr, hrs⟩ := List.mem_map.mp hk
      obtain ⟨j, hj, hrs'⟩ := sentRows_rowSent_mem d.sentences 1 r hr
      have : k = 1 + j := natStr_injective (hrs.symm.trans hrs')
      omega
    · intro ⟨hk1, hk2⟩
      have hi : k - 1 < d.sentences.length := by omega
      have hfil := filter_sentRowsList d.sentences 1 (k - 1) hi
      have hblock := tokRows_ne_nil (1 + (k - 1)) 1 (d.sentences.get ⟨k - 1, hi⟩)
        (hne _ (List.get_mem d.sentences (k - 1) hi))
      obtain ⟨r, hr⟩ := List.exists_mem_of_ne_nil _ hblock
      have hrmem : r ∈ (doc_to_tsv_rows d).filter (fun r => rowSent r == natStr (1 + (k - 1))) := by
        rw [show doc_to_tsv_rows d = sentRowsList 1 d.sentences from rfl, hfil]
        exact hr
      refine List.mem_map.mpr ⟨r, List.mem_of_mem_filter hrmem, ?_⟩
      have := List.of_mem_filter hrmem
      have heq : rowSent r = natStr (1 + (k - 1)) := by simpa using this
      rw [heq]
      congr 1
      omega
  · intro i hi
    have hfil := filter_sentRowsList d.sentences 1 i hi
    rw [show doc_to_tsv_rows d = sentRowsList 1 d.sentences from rfl,
      show (i + 1) = 1 + i from by omega, hfil, tokRows_rowTok,
      List.length_zip, bio_tags_length, Nat.min_self]

/-- C8 (witness): the two-sentence document with 2 and 1 tokens has 3
rows, sent_ix values exactly `{1, 2}`, and in-sentence tok_ix values
`1, 2` and `1`. -/
theorem c8_row_counts_witness :
    (doc_to_tsv_rows (Document.mk
        [Sentence.mk "s1"
          [Token.mk "a" (Word.mk 1 "a" none none none none none none) [],
           Token.mk "b" (Word.mk 2 "b" none none none none none none) []] [],
         Sentence.mk "s2"
          [Token.mk "c" (Word.mk 1 "c" none none none none none none) []] []])).length =
      ([2, 1] : List Nat).sum ∧
    (natStr 2 ∈ (doc_to_tsv_rows (Document.mk
        [Sentence.mk "s1"
          [Token.mk "a" (Word.mk 1 "a" none none none none none none) [],
           Token.mk "b" (Word.mk 2 "b" none none none none none none) []] [],
         Sentence.mk "s2"
          [Token.mk "c" (Word.mk 1 "c" none none none none none none) []] []])).map rowSent ↔
      1 ≤ 2 ∧ 2 ≤ 2) := by
  have h := c8_row_counts (Document.mk
    [Sentence.mk "s1"
      [Token.mk "a" (Word.mk 1 "a" none none none none none none) [],
       Token.mk "b" (Word.mk 2 "b" none none none none none none) []] [],
     Sentence.mk "s2"
      [Token.mk "c" (Word.mk 1 "c" none none none none none none) []] []])
    (by decide)
  exact ⟨h.1, h.2.1 2⟩

/-! ## Split/join and strip lemmas (for the validator and the loader) -/

theorem splitChar_ne_nil (sep : Char) (l : List Char) : splitChar sep l ≠ [] := by
  cases l with
  | nil => simp [splitChar]
  | cons c cs =>
    by_cases h : c = sep
    · simp [splitChar, h]
    · simp only [splitChar, if_neg h]
      cases splitChar sep cs <;> simp

theorem splitChar_sep_not_mem (sep : Char) (l : List Char) :
    ∀ chunk ∈ splitChar sep l, sep ∉ chunk := by
  induction l with
  | nil =>
    intro chunk hc
    simp [splitChar] at hc
    simp [hc]
  | cons c cs ih =>
    intro chunk hc
    by_cases h : c = sep
    · rw [splitChar, if_pos h] at hc
      rcases List.mem_cons.mp hc with h1 | h1
      · simp [h1]
      · exact ih chunk h1
    · rw [splitChar, if_neg h] at hc
      cases hsp : splitChar sep cs with
      | nil => exact absurd hsp (splitChar_ne_nil sep cs)
      | cons t ts =>
        rw [hsp] at hc
        rcases List.mem_cons.mp hc with h1 | h1
        · subst h1
          intro hmem
          rcases List.mem_cons.mp hmem with h2 | h2
          · exact h h2.symm
          · exact ih t (hsp ▸ List.mem_cons_self _ _) h2
        · exact ih chunk (hsp ▸ List.mem_cons_of_mem _ h1)

theorem splitChar_of_not_mem (sep : Char) (x : List Char) (hx : sep ∉ x) :
    splitChar sep x = [x] := by
  induction x with
  | nil => rfl
  | cons c cs ih =>
    have hc : c ≠ sep := fun e => hx (e ▸ List.mem_cons_self _ _)
    have hcs : sep ∉ cs := fun h => hx (List.mem_cons_of_mem _ h)
    rw [splitChar, if_neg (fun e => hc e), ih hcs]

theorem splitChar_append_sep (sep : Char) (x rest : List Char) (hx : sep ∉ x) :
    splitChar sep (x ++ sep :: rest) = x :: splitChar sep rest := by
  induction x with
  | nil => simp [splitChar]
  | cons c cs ih =>
    have hc : c ≠ sep := fun e => hx (e ▸ List.mem_cons_self _ _)
    have hcs : sep ∉ cs := fun h => hx (List.mem_cons_of_mem _ h)
    rw [List.cons_append, splitChar, if_neg (fun e => hc e), ih hcs]

theorem splitChar_joinCh (sep : Char) (ls : List (List Char)) (hne : ls ≠ [])
    (hfree : ∀ l ∈ ls, sep ∉ l) : splitChar sep (joinCh sep ls) = ls := by
  induction ls with
  | nil => exact absurd rfl hne
  | cons x ls ih =>
    cases ls with
    | nil => exact splitChar_of_not_mem sep x (hfree x (List.mem_cons_self _ _))
    | cons y ys =>
      rw [joinCh, splitChar_append_sep sep x _ (hfree x (List.mem_cons_self _ _)),
        ih (by simp) (fun l hl => hfree l (List.mem_cons_of_mem _ hl))]

theorem joinStr_data (sep : Char) (l : List String) :
    (joinStr (String.mk [sep]) l).data = joinCh sep (l.map String.data) := by
  induction l with
  | nil => rfl
  | cons x l ih =>
    cases l with
    | nil => rfl
    | cons y ys =>
      show (x ++ String.mk [sep] ++ joinStr (String.mk [sep]) (y :: ys)).data =
        x.data ++ sep :: joinCh sep ((y :: ys).map String.data)
      rw [String.data_append, String.data_append, ih]
      simp

theorem dropWhile_head_false (p : Char → Bool) (l : List Char) :
    ∀ x, (l.dropWhile p).head? = some x → p x = false := by
  induction l with
  | nil => intro x hx; simp at hx
  | cons c cs ih =>
    intro x hx
    by_cases h : p c
    · rw [List.dropWhile_cons_of_pos h] at hx
      exact ih x hx
    · rw [List.dropWhile_cons_of_neg h] at hx
      simp only [List.head?_cons, Option.some.injEq] at hx
      subst hx
      simpa using h

theorem dropWhile_idem (p : Char → Bool) (l : List Char) :
    (l.dropWhile p).dropWhile p = l.dropWhile p := by
  cases h : l.dropWhile p with
  | nil => rfl
  | cons c cs =>
    have := dropWhile_head_false p l c (by rw [h]; rfl)
    rw [List.dropWhile_cons_of_neg (by simp [this])]

theorem dropWhile_of_head_false (p : Char → Bool) (l : List Char)
    (h : ∀ x, l.head? = some x → p x = false) : l.dropWhile p = l := by
  cases l with
  | nil => rfl
  | cons c cs =>
    have := h c rfl
    rw [List.dropWhile_cons_of_neg (by simp [this])]

theorem stripData_idem (l : List Char) : stripData (stripData l) = stripData l := by
  unfold stripData
  set A := l.dropWhile isSpc with hA
  set C := A.reverse.dropWhile isSpc with hC
  -- the stripped list is `C.reverse`; its head is the head of `A`
  have hpre : C.reverse <+: A := by
    rw [← List.reverse_reverse A]
    exact List.reverse_prefix.mpr (List.dropWhile_suffix isSpc)
  have hhead : ∀ x, C.reverse.head? = some x → isSpc x = false := by
    intro x hx
    obtain ⟨t, ht⟩ := hpre
    cases hcr : C.reverse with
    | nil => rw [hcr] at hx; simp at hx
    | cons c cs =>
      rw [hcr] at hx ht
      simp only [List.head?_cons, Option.some.injEq] at hx
      have hhd : (l.dropWhile isSpc).head? = some c := by
        rw [← hA, ← ht]
        rfl
      exact hx ▸ dropWhile_head_false isSpc l c hhd
  rw [dropWhile_of_head_false isSpc C.reverse hhead, List.reverse_reverse,
    dropWhile_idem]

theorem pyStrip_idem (s : String) : pyStrip (pyStrip s) = pyStrip s := by
  unfold pyStrip
  rw [show (String.mk (stripData s.data)).data = stripData s.data from rfl, stripData_idem]

theorem stripData_subset (l : List Char) : ∀ x ∈ stripData l, x ∈ l := by
  intro x hx
  unfold stripData at hx
  rw [List.mem_reverse] at hx
  have h1 := (List.dropWhile_suffix isSpc).sublist.mem hx
  rw [List.mem_reverse] at h1
  exact (List.dropWhile_suffix isSpc).sublist.mem h1

/-! ## Claim C10: idempotence of `validate_processors` -/

theorem procPriority_eq_zero {x : String} (h : procPriority x = 0) : x = "tokenize" := by
  unfold procPriority at h
  split_ifs at h with h1 h2 h3 h4 h5 h6
  exact h1

theorem sorted_head_tokenize (l : List String) (hs : List.Sorted procLe l)
    (htk : "tokenize" ∈ l) : l.head? = some "tokenize" := by
  cases l with
  | nil => simp at htk
  | cons h t =>
    rcases List.mem_cons.mp htk with he | he
    · rw [he]
      rfl
    · have hr : procLe h "tokenize" := (List.sorted_cons.mp hs).1 _ he
      have hle : procPriority h ≤ 0 := by
        have h0 : procPriority "tokenize" = 0 := rfl
        unfold procLe at hr
        omega
      have hz : procPriority h = 0 := by omega
      rw [procPriority_eq_zero hz]
      rfl

theorem dedupFirstAux_of_nodup {α : Type} [DecidableEq α] (l : List α) :
    ∀ seen, l.Nodup → (∀ x ∈ l, x ∉ seen) → dedupFirstAux seen l = l := by
  induction l with
  | nil => intro seen _ _; rfl
  | cons p rest ih =>
    intro seen hnd hns
    have hp : p ∉ seen := hns p (List.mem_cons_self _ _)
    rw [dedupFirstAux, if_neg hp, ih (p :: seen) (List.nodup_cons.mp hnd).2]
    intro x hx
    simp only [List.mem_cons]
    push_neg
    exact ⟨fun e => (List.nodup_cons.mp hnd).1 (e ▸ hx), hns x (List.mem_cons_of_mem _ hx)⟩

theorem dedupFirst_of_nodup {α : Type} [DecidableEq α] (l : List α) (h : l.Nodup) :
    dedupFirst l = l :=
  dedupFirstAux_of_nodup l [] h (by simp)

theorem map_comp_strip (l : List String) (h : ∀ x ∈ l, pyStrip x = x) :
    l.map ((fun c => pyStrip (String.mk c)) ∘ String.data) = l := by
  induction l with
  | nil => rfl
  | cons a l ih =>
    simp only [List.map_cons, Function.comp_apply]
    rw [show String.mk a.data = a from rfl, h a (List.mem_cons_self _ _),
      ih (fun x hx => h x (List.mem_cons_of_mem _ hx))]

theorem partsRaw_props (s : String) :
    ∀ x ∈ partsRaw s, x ≠ "" ∧ pyStrip x = x ∧ ',' ∉ x.data := by
  intro x hx
  unfold partsRaw at hx
  obtain ⟨hmem, hne⟩ := List.mem_filter.mp hx
  obtain ⟨c, hc, hcx⟩ := List.mem_map.mp hmem
  refine ⟨by simpa using hne, ?_, ?_⟩
  · rw [← hcx, pyStrip_idem]
  · rw [← hcx]
    intro hcomma
    exact splitChar_sep_not_mem ',' s.data c hc
      (stripData_subset (String.mk c).data ',' hcomma)

theorem validate_fst (s : String) :
    (validate_processors s).1 =
      joinStr "," (List.insertionSort procLe (dedupFirst (partsRaw s))) := by
  unfold validate_processors
  by_cases htk : "tokenize" ∈ List.insertionSort procLe (dedupFirst (partsRaw s))
  · have hhead := sorted_head_tokenize _ (List.sorted_insertionSort procLe _) htk
    rw [if_neg (by simp [hhead])]
  · rw [if_neg (by simp [htk])]

theorem validate_fixed_point (PF : List String)
    (hprops : ∀ x ∈ PF, x ≠ "" ∧ pyStrip x = x ∧ ',' ∉ x.data)
    (hnd : PF.Nodup) (hsorted : List.Sorted procLe PF) :
    (validate_processors (joinStr "," PF)).1 = joinStr "," PF := by
  rw [validate_fst (joinStr "," PF)]
  cases PF with
  | nil => decide
  | cons p ps =>
    have hparts : partsRaw (joinStr "," (p :: ps)) = p :: ps := by
      unfold partsRaw
      rw [show ("," : String) = String.mk [','] from rfl, joinStr_data,
        splitChar_joinCh ',' _ (by simp)
          (by
            intro l hl
            obtain ⟨x, hx, hxl⟩ := List.mem_map.mp hl
            rw [← hxl]
            exact (hprops x hx).2.2),
        List.map_map, map_comp_strip _ (fun x hx => (hprops x hx).2.1), List.filter_eq_self]
      intro x hx
      simpa using (hprops x hx).1
    rw [hparts, dedupFirst_of_nodup _ hnd, List.Sorted.insertionSort_eq hsorted]

/-- C10: `validate_processors` is idempotent on its normalized output:
for every input string `s`, re-validating the normalized string returns
that same normalized string (the normalized form is a fixed point of
the split–strip–dedup–sort pipeline; the defensive tokenize-first pass
never fires on it, since the priority sort already puts `tokenize`
first whenever it is present). -/
theorem c10_validate_idempotent (s : String) :
    (validate_processors (validate_processors s).1).1 = (validate_processors s).1 := by
  rw [validate_fst s]
  refine validate_fixed_point _ ?_ ?_ ?_
  · intro x hx
    exact partsRaw_props s x
      (dedupFirstAux_subset [] _ x ((List.perm_insertionSort procLe _).mem_iff.mp hx))
  · exact (List.perm_insertionSort procLe _).symm.nodup (dedupFirst_nodup _)
  · exact List.sorted_insertionSort procLe _

/-! ## Claim C1: round-trip of the tabular serialization through the loader -/

theorem joinCh_append_nil (sep : Char) (L : List (List Char)) (hne : L ≠ []) :
    joinCh sep (L ++ [[]]) = joinCh sep L ++ [sep] := by
  induction L with
  | nil => exact absurd rfl hne
  | cons x L ih =>
    cases L with
    | nil => rfl
    | cons y ys =>
      show x ++ sep :: joinCh sep ((y :: ys) ++ [[]]) = (x ++ sep :: joinCh sep (y :: ys)) ++ [sep]
      rw [ih (by simp)]
      simp

theorem not_mem_joinCh {c sep : Char} (hcs : c ≠ sep) (ls : List (List Char))
    (h : ∀ l ∈ ls, c ∉ l) : c ∉ joinCh sep ls := by
  induction ls with
  | nil => simp [joinCh]
  | cons x ls ih =>
    cases ls with
    | nil => exact h x (List.mem_cons_self _ _)
    | cons y ys =>
      show c ∉ x ++ sep :: joinCh sep (y :: ys)
      intro hmem
      rcases List.mem_append.mp hmem with hm | hm
      · exact h x (List.mem_cons_self _ _) hm
      · rcases List.mem_cons.mp hm with hm1 | hm1
        · exact hcs hm1
        · exact ih (fun l hl => h l (List.mem_cons_of_mem _ hl)) hm1

theorem map_mk_data (l : List String) : (l.map String.data).map String.mk = l := by
  induction l with
  | nil => rfl
  | cons a l ih => simp only [List.map_cons, ih]

theorem readCell_not_na {c : String} (h : c ∉ NA_VALUES) : readCell c = some c := by
  unfold readCell
  rw [if_neg h]

theorem parse_headCell (oh : Option Nat) : (parseNat10 (headCell oh)).getD 0 = oh.getD 0 := by
  cases oh with
  | none => rfl
  | some h => rw [headCell, parseNat10_natStr]

theorem tokRows_cells_length (s_ix : Nat) (pairs : List (Token × String)) :
    ∀ t_ix, ∀ r ∈ tokRows s_ix t_ix pairs, r.length = 9 := by
  induction pairs with
  | nil => intro t_ix r hr; simp [tokRows] at hr
  | cons p rest ih =>
    intro t_ix r hr
    rcases List.mem_cons.mp hr with h | h
    · subst h; rfl
    · exact ih (t_ix + 1) r h

theorem sentRows_cells_length (ss : List Sentence) :
    ∀ b, ∀ r ∈ sentRowsList b ss, r.length = 9 := by
  induction ss with
  | nil => intro b r hr; simp [sentRowsList] at hr
  | cons s ss ih =>
    intro b r hr
    rcases List.mem_append.mp hr with h | h
    · exact tokRows_cells_length b _ 1 r h
    · exact ih (b + 1) r h

theorem splitChar_joinStr_row (row : List String) (hne : row ≠ [])
    (hfree : ∀ c ∈ row, '\t' ∉ c.data) :
    splitChar '\t' (joinStr "\t" row).data = row.map String.data := by
  rw [show ("\t" : String) = String.mk ['\t'] from rfl, joinStr_data]
  refine splitChar_joinCh '\t' _ (by simpa using hne) ?_
  intro l hl
  obtain ⟨x, hx, hxl⟩ := List.mem_map.mp hl
  rw [← hxl]
  exact hfree x hx

theorem loadRow_tokRow (s t : Nat) (tok : Token) (bio : String)
    (hcond : ∀ c ∈ tokRowCells s t tok bio, '\t' ∉ c.data ∧ '\n' ∉ c.data ∧ c ∉ NA_VALUES) :
    loadRow ((splitChar '\t' (joinStr "\t" (tokRowCells s t tok bio)).data).map String.mk) =
      .ok (expectedRow s t tok bio) := by
  rw [splitChar_joinStr_row _ (by simp [tokRowCells]) (fun c hc => (hcond c hc).1),
    map_mk_data]
  have h2 : tok.text ∉ NA_VALUES :=
    (hcond tok.text (by simp [tokRowCells])).2.2
  have h3 : orBlank tok.word0.lemma' ∉ NA_VALUES :=
    (hcond (orBlank tok.word0.lemma') (by simp [tokRowCells])).2.2
  have h4 : orBlank tok.word0.upos ∉ NA_VALUES :=
    (hcond (orBlank tok.word0.upos) (by simp [tokRowCells])).2.2
  have h5 : orBlank tok.word0.xpos ∉ NA_VALUES :=
    (hcond (orBlank tok.word0.xpos) (by simp [tokRowCells])).2.2
  have h7 : orBlank tok.word0.deprel ∉ NA_VALUES :=
    (hcond (orBlank tok.word0.deprel) (by simp [tokRowCells])).2.2
  have h8 : bio ∉ NA_VALUES :=
    (hcond bio (by simp [tokRowCells])).2.2
  show loadRow [natStr s, natStr t, tok.text, orBlank tok.word0.lemma', orBlank tok.word0.upos,
    orBlank tok.word0.xpos, headCell tok.word0.head, orBlank tok.word0.deprel, bio] = _
  simp only [loadRow, expectedRow, parseNat10_natStr, readCell_not_na h2, readCell_not_na h3,
    readCell_not_na h4, readCell_not_na h5, readCell_not_na h7, readCell_not_na h8,
    parse_headCell, Option.getD_some]

theorem loadRows_tokRows (s_ix : Nat) (pairs : List (Token × String)) : ∀ t_ix,
    (∀ row ∈ tokRows s_ix t_ix pairs, ∀ c ∈ row, '\t' ∉ c.data ∧ '\n' ∉ c.data ∧ c ∉ NA_VALUES) →
    loadRows ((tokRows s_ix t_ix pairs).map (fun r => (joinStr "\t" r).data)) =
      .ok (expectedTokRows s_ix t_ix pairs) := by
  induction pairs with
  | nil => intro t_ix _; rfl
  | cons p rest ih =>
    intro t_ix hcond
    obtain ⟨tok, bio⟩ := p
    show loadRows ((joinStr "\t" (tokRowCells s_ix t_ix tok bio)).data ::
      (tokRows s_ix (t_ix + 1) rest).map (fun r => (joinStr "\t" r).data)) = _
    rw [loadRows, loadRow_tokRow s_ix t_ix tok bio
        (hcond _ (List.mem_cons_self _ _)),
      ih (t_ix + 1) (fun row hrow => hcond row (List.mem_cons_of_mem _ hrow))]
    rfl

theorem loadRows_ok_append {l1 l2 : List (List Char)} {r1 r2 : List LoadedRow}
    (h1 : loadRows l1 = .ok r1) (h2 : loadRows l2 = .ok r2) :
    loadRows (l1 ++ l2) = .ok (r1 ++ r2) := by
  induction l1 generalizing r1 with
  | nil =>
    have : r1 = [] := by
      have := h1
      unfold loadRows at this
      exact ((Except.ok.injEq _ _).mp this).symm
    subst this
    simpa using h2
  | cons line rest ih =>
    rw [loadRows] at h1
    cases hl : loadRow ((splitChar '\t' line).map String.mk) with
    | error e => rw [hl] at h1; simp at h1
    | ok r =>
      rw [hl] at h1
      cases hr : loadRows rest with
      | error e => rw [hr] at h1; simp at h1
      | ok rs =>
        rw [hr] at h1
        have hr1 : r1 = r :: rs := ((Except.ok.injEq _ _).mp h1).symm
        subst hr1
        show loadRows (line :: (rest ++ l2)) = _
        rw [loadRows, hl, ih hr]
        rfl

theorem loadRows_sentRows (ss : List Sentence) : ∀ b,
    (∀ row ∈ sentRowsList b ss, ∀ c ∈ row, '\t' ∉ c.data ∧ '\n' ∉ c.data ∧ c ∉ NA_VALUES) →
    loadRows ((sentRowsList b ss).map (fun r => (joinStr "\t" r).data)) =
      .ok (expectedSentRows b ss) := by
  induction ss with
  | nil => intro b _; rfl
  | cons s ss ih =>
    intro b hcond
    show loadRows (List.map (fun r => (joinStr "\t" r).data)
      (tokRows b 1 (s.tokens.zip (bio_tags s)) ++ sentRowsList (b + 1) ss)) = _
    rw [List.map_append, loadRows_ok_append
      (loadRows_tokRows b _ 1 (fun row hrow => hcond row (List.mem_append_left _ hrow)))
      (ih (b + 1) (fun row hrow => hcond row (List.mem_append_right _ hrow)))]
    rfl

end StanzaSuite
